import Mathlib

/-!
Verification of the `tread.h` terminal compositor / software rasterizer.

This file gives a shallow embedding in Lean 4 of the engine defined in
`src/tread.h` and proves (or refutes) the specification claims about it.

Modelling conventions, stated once here:
* C `unsigned char` color channels are modelled as `ℕ` (all values stored by
  the engine are in `[0,256)`; the claims hold for all naturals).
* C `int` coordinates are modelled as `ℤ`; buffer dimensions, which the engine
  only ever obtains from the non-negative terminal-size query, as `ℕ`.
* C `char` cell glyphs are modelled as `ℤ` character codes (space = 32).
* The flat `malloc`ed cell array indexed by `y * width + x` is modelled as a
  `List` of that length indexed the same way; `memcpy` of the whole array is
  modelled as list assignment, and reads/writes use `List.getD` / `List.set`.
* `float` arithmetic of the 3D pipeline is modelled as exact rational
  arithmetic (`ℚ`); C casts `(int)f` truncate toward zero, modelled by
  truncated division of numerator by denominator (`Int.tdiv`).
* Platform side effects (ANSI escapes, console API) are modelled by recording
  the emitted per-cell writes; backend inputs (terminal size, pending input
  bytes) are passed as explicit arguments.
-/

/-- RGBA color, mirroring `Color` of `tread.h` (four `unsigned char`s). -/
structure Color where
  r : ℕ
  g : ℕ
  b : ℕ
  a : ℕ
deriving DecidableEq

/-- One terminal cell, mirroring `__TR_Cell`: a glyph and fg/bg colors. -/
structure Cell where
  character : ℤ
  fg_color : Color
  bg_color : Color
deriving DecidableEq

/-- The `BLANK` transparent/inherit sentinel color `{1, 0, 0, 0}`. -/
def BLANK : Color := ⟨1, 0, 0, 0⟩

/-- The `BLACK` color `{0, 0, 0, 255}`. -/
def BLACK : Color := ⟨0, 0, 0, 255⟩

/-- The `RED` color `{230, 41, 55, 255}`. -/
def RED : Color := ⟨230, 41, 55, 255⟩

/-- The `BLUE` color `{0, 121, 241, 255}`. -/
def BLUE : Color := ⟨0, 121, 241, 255⟩

/-- The `WHITE` color `{255, 255, 255, 255}`. -/
def WHITE : Color := ⟨255, 255, 255, 255⟩

/-- `__tr_colors_equal`: compares two colors ignoring the alpha channel. -/
def __tr_colors_equal (c1 c2 : Color) : Bool :=
  c1.r == c2.r && c1.g == c2.g && c1.b == c2.b

/-- The 8-entry canonical terminal palette `terminal_colors` of
`__tr_map_color_to_terminal`, in source order: black, red, green, yellow,
blue, magenta, cyan, white. -/
def __tr_terminal_colors : List Color :=
  [⟨0, 0, 0, 255⟩, ⟨255, 0, 0, 255⟩, ⟨0, 255, 0, 255⟩, ⟨255, 255, 0, 255⟩,
   ⟨0, 0, 255, 255⟩, ⟨255, 0, 255, 255⟩, ⟨0, 255, 255, 255⟩, ⟨255, 255, 255, 255⟩]

/-- The squared-distance expression of `__tr_map_color_to_terminal`'s loop
body: the `unsigned char` channels are promoted to `int` before subtraction,
so each difference is an exact signed integer; the three squares are exactly
representable in `double`, hence modelled in `ℤ`. -/
def __tr_color_dist (c t : Color) : ℤ :=
  ((c.r : ℤ) - t.r) * ((c.r : ℤ) - t.r) +
    ((c.g : ℤ) - t.g) * ((c.g : ℤ) - t.g) +
    ((c.b : ℤ) - t.b) * ((c.b : ℤ) - t.b)

/-- The accumulator loop of `__tr_map_color_to_terminal`: state is
`(min_dist, best_match)` starting at `(-1, 0)`, updated at index `i` when
`min_dist == -1 || dist < min_dist`. -/
def __tr_color_scan (d : ℕ → ℤ) (n : ℕ) : ℤ × ℤ :=
  (List.range n).foldl
    (fun acc i => if acc.1 = -1 ∨ d i < acc.1 then (d i, (i : ℤ)) else acc)
    (-1, 0)

/-- `__tr_map_color_to_terminal`: nearest canonical terminal color by squared
RGB distance, first strict improvement winning. The `is_background` flag is
unused by the source as well. -/
def __tr_map_color_to_terminal (color : Color) (is_background : Bool) : ℤ :=
  (__tr_color_scan
    (fun i => __tr_color_dist color (__tr_terminal_colors.getD i ⟨0, 0, 0, 0⟩)) 8).2

/-- Invariant of the scan loop: after `n > 0` steps the state holds the
distance and index of the first strict minimum among indices `< n`. -/
lemma color_scan_spec (d : ℕ → ℤ) (hd : ∀ j, 0 ≤ d j) :
    ∀ n, 0 < n → ∃ b : ℕ, __tr_color_scan d n = (d b, (b : ℤ)) ∧ b < n ∧
      (∀ j < n, d b ≤ d j) ∧ (∀ j < b, d b < d j) := by
  intro n
  induction n with
  | zero => intro h; omega
  | succ m ih =>
    intro _
    rcases Nat.eq_zero_or_pos m with hm | hm
    · subst hm
      refine ⟨0, ?_, by omega, ?_, by omega⟩
      · unfold __tr_color_scan
        rw [show List.range 1 = [0] from rfl]
        simp
      · intro j hj; interval_cases j; exact le_refl _
    · obtain ⟨b, hb, hbm, hmin, hfirst⟩ := ih hm
      have hstep : __tr_color_scan d (m + 1) =
          (if (d b = -1 ∨ d m < d b) then (d m, (m : ℤ)) else (d b, (b : ℤ))) := by
        unfold __tr_color_scan at hb ⊢
        rw [List.range_succ, List.foldl_append, hb]
        simp
      have hbne : ¬ (d b = -1) := by have := hd b; omega
      by_cases hlt : d m < d b
      · refine ⟨m, ?_, by omega, ?_, ?_⟩
        · rw [hstep, if_pos (Or.inr hlt)]
        · intro j hj
          rcases Nat.lt_succ_iff_lt_or_eq.mp hj with h | h
          · exact le_of_lt (lt_of_lt_of_le hlt (hmin j h))
          · subst h; exact le_refl _
        · intro j hj
          exact lt_of_lt_of_le hlt (hmin j hj)
      · refine ⟨b, ?_, by omega, ?_, hfirst⟩
        · rw [hstep, if_neg (by tauto)]
        · intro j hj
          rcases Nat.lt_succ_iff_lt_or_eq.mp hj with h | h
          · exact hmin j h
          · subst h; omega

lemma color_dist_nonneg (c t : Color) : 0 ≤ __tr_color_dist c t := by
  unfold __tr_color_dist
  have h1 := mul_self_nonneg ((c.r : ℤ) - t.r)
  have h2 := mul_self_nonneg ((c.g : ℤ) - t.g)
  have h3 := mul_self_nonneg ((c.b : ℤ) - t.b)
  omega

/-- C3: for every color, `__tr_map_color_to_terminal` returns the smallest
index in `[0,8)` minimizing squared Euclidean RGB distance (alpha excluded) to
the canonical palette, the first strict improvement winning, and each of the 8
canonical colors maps exactly to its own index. Determinism is inherent: the
embedding is a pure function of its arguments. -/
theorem c3_color_mapping (color : Color) (is_background : Bool) :
    ∃ b : ℕ, __tr_map_color_to_terminal color is_background = b ∧ b < 8 ∧
      (∀ j < 8, __tr_color_dist color (__tr_terminal_colors.getD b ⟨0, 0, 0, 0⟩) ≤
        __tr_color_dist color (__tr_terminal_colors.getD j ⟨0, 0, 0, 0⟩)) ∧
      (∀ j < b, __tr_color_dist color (__tr_terminal_colors.getD b ⟨0, 0, 0, 0⟩) <
        __tr_color_dist color (__tr_terminal_colors.getD j ⟨0, 0, 0, 0⟩)) ∧
      (∀ k, (hk : k < 8) →
        __tr_map_color_to_terminal (__tr_terminal_colors.getD k ⟨0, 0, 0, 0⟩)
          is_background = k) := by
  obtain ⟨b, hb, hbn, hmin, hfirst⟩ :=
    color_scan_spec
      (fun i => __tr_color_dist color (__tr_terminal_colors.getD i ⟨0, 0, 0, 0⟩))
      (fun j => color_dist_nonneg _ _) 8 (by omega)
  refine ⟨b, ?_, hbn, hmin, hfirst, ?_⟩
  · unfold __tr_map_color_to_terminal
    rw [hb]
  · intro k hk
    interval_cases k <;> (cases is_background <;> decide)

/-- Witness for C3 at concrete inputs: the mapped index of a concrete color
satisfies the minimality facts, instantiated at concrete comparison indices. -/
theorem c3_color_mapping_witness :
    ∃ b : ℕ, __tr_map_color_to_terminal ⟨200, 30, 20, 7⟩ false = b ∧ b < 8 ∧
      (__tr_color_dist ⟨200, 30, 20, 7⟩ (__tr_terminal_colors.getD b ⟨0, 0, 0, 0⟩) ≤
        __tr_color_dist ⟨200, 30, 20, 7⟩ (__tr_terminal_colors.getD 3 ⟨0, 0, 0, 0⟩)) ∧
      (__tr_map_color_to_terminal (__tr_terminal_colors.getD 5 ⟨0, 0, 0, 0⟩) false = 5) := by
  obtain ⟨b, hb, hbn, hmin, hfirst, hcanon⟩ := c3_color_mapping ⟨200, 30, 20, 7⟩ false
  exact ⟨b, hb, hbn, hmin 3 (by omega), hcanon 5 (by omega)⟩

/-- The mutable globals of the engine, gathered into one record: open flag,
target frame time, last-key slot, the two cell buffers, their dimensions, the
current background color, the initial dimensions kept for resize detection,
and the 3D depth buffer with its element count (allocated in `TR_3D` builds). -/
structure EngineState where
  windowOpen : Bool
  frameTimeUs : ℤ
  keyBuffer : ℤ
  screenBuffer : List Cell
  prevScreenBuffer : List Cell
  bufferWidth : ℕ
  bufferHeight : ℕ
  currentBgColor : Color
  initialWidth : ℕ
  initialHeight : ℕ
  zBuffer : List ℚ
  zBufferSize : ℕ
deriving DecidableEq

/-- `TR_DrawPixel`: writes a solid cell (glyph space, fg = bg = color) at
`(x, y)`, silently dropped when the window is closed or `(x, y)` is out of
bounds. -/
def TR_DrawPixel (x y : ℤ) (color : Color) (st : EngineState) : EngineState :=
  if ¬ st.windowOpen = true ∨ x < 0 ∨ (st.bufferWidth : ℤ) ≤ x ∨ y < 0 ∨
      (st.bufferHeight : ℤ) ≤ y then st
  else
    { st with screenBuffer :=
        st.screenBuffer.set (y * st.bufferWidth + x).toNat ⟨32, color, color⟩ }

/-- The background-resolution step shared by `TR_DrawText`,
`TR_DrawRectangle` and `TR_DrawRectangleLines`: a `bg_color` equal to `BLANK`
under `__tr_colors_equal` resolves to the current clear color. -/
def __tr_resolve_bg (bg : Color) (st : EngineState) : Color :=
  if __tr_colors_equal bg BLANK then st.currentBgColor else bg

/-- The character loop of `TR_DrawText` over the text's char codes; each
write is guarded by `0 <= x + i < width`. The text is modelled as its list of
characters up to the NUL terminator (the NULL-pointer early return of the
source is outside the model). -/
def __tr_text_loop (text : List ℤ) (x y : ℤ) (wd : ℕ) (fg finalBg : Color)
    (buf : List Cell) : List Cell :=
  (List.range text.length).foldl
    (fun b (i : ℕ) =>
      if 0 ≤ x + (i : ℤ) ∧ x + (i : ℤ) < (wd : ℤ) then
        b.set ((y * wd + (x + (i : ℤ))).toNat) ⟨text.getD i 0, fg, finalBg⟩
      else b)
    buf

/-- `TR_DrawText`: early-outs when closed or `y` out of range, resolves the
`BLANK` background sentinel, then writes one glyph per character, clipping
each column independently. The ignored `fontSize` is kept for fidelity. -/
def TR_DrawText (text : List ℤ) (x y : ℤ) (fontSize : ℤ) (fg_color bg_color : Color)
    (st : EngineState) : EngineState :=
  if ¬ st.windowOpen = true ∨ y < 0 ∨ (st.bufferHeight : ℤ) ≤ y then st
  else
    let buf := __tr_text_loop text x y st.bufferWidth fg_color
      (__tr_resolve_bg bg_color st) st.screenBuffer
    { st with screenBuffer := buf }

/-- The nested row-major fill loops of `TR_DrawRectangle`; each cell write is
individually bounds-checked. -/
def __tr_rect_loop (x y : ℤ) (width height : ℤ) (wd ht : ℕ) (fg finalBg : Color)
    (buf : List Cell) : List Cell :=
  (List.range height.toNat).foldl
    (fun bj (j : ℕ) =>
      (List.range width.toNat).foldl
        (fun b (i : ℕ) =>
          if 0 ≤ x + (i : ℤ) ∧ x + (i : ℤ) < (wd : ℤ) ∧ 0 ≤ y + (j : ℤ) ∧
              y + (j : ℤ) < (ht : ℤ) then
            b.set (((y + (j : ℤ)) * wd + (x + (i : ℤ))).toNat) ⟨32, fg, finalBg⟩
          else b)
        bj)
    buf

/-- `TR_DrawRectangle`: resolves the `BLANK` sentinel, then fills the
`width × height` rectangle row-major with glyph space, the given foreground
and the resolved background. -/
def TR_DrawRectangle (x y width height : ℤ) (fg_color bg_color : Color)
    (st : EngineState) : EngineState :=
  if ¬ st.windowOpen = true then st
  else
    let buf := __tr_rect_loop x y width height st.bufferWidth st.bufferHeight fg_color
      (__tr_resolve_bg bg_color st) st.screenBuffer
    { st with screenBuffer := buf }

/-- The top/bottom rows loop of `TR_DrawRectangleLines`: for each `i < width`
writes `#` cells at `(x+i, y)` and `(x+i, y+height-1)`, each bounds-checked. -/
def __tr_lines_tb_loop (x y : ℤ) (width height : ℤ) (wd ht : ℕ) (fg finalBg : Color)
    (buf : List Cell) : List Cell :=
  (List.range width.toNat).foldl
    (fun b (i : ℕ) =>
      let b1 :=
        if 0 ≤ x + (i : ℤ) ∧ x + (i : ℤ) < (wd : ℤ) ∧ 0 ≤ y ∧ y < (ht : ℤ) then
          b.set ((y * wd + (x + (i : ℤ))).toNat) ⟨35, fg, finalBg⟩
        else b
      if 0 ≤ x + (i : ℤ) ∧ x + (i : ℤ) < (wd : ℤ) ∧ 0 ≤ y + height - 1 ∧
          y + height - 1 < (ht : ℤ) then
        b1.set (((y + height - 1) * wd + (x + (i : ℤ))).toNat) ⟨35, fg, finalBg⟩
      else b1)
    buf

/-- The left/right columns loop of `TR_DrawRectangleLines`: for each `j` from
`1` to `height - 2` writes `#` cells at `(x, y+j)` and `(x+width-1, y+j)`. -/
def __tr_lines_lr_loop (x y : ℤ) (width height : ℤ) (wd ht : ℕ) (fg finalBg : Color)
    (buf : List Cell) : List Cell :=
  ((List.range (height - 2).toNat).map (fun (n : ℕ) => ((n : ℤ) + 1))).foldl
    (fun b (j : ℤ) =>
      let b1 :=
        if 0 ≤ x ∧ x < (wd : ℤ) ∧ 0 ≤ y + j ∧ y + j < (ht : ℤ) then
          b.set (((y + j) * wd + x).toNat) ⟨35, fg, finalBg⟩
        else b
      if 0 ≤ x + width - 1 ∧ x + width - 1 < (wd : ℤ) ∧ 0 ≤ y + j ∧ y + j < (ht : ℤ) then
        b1.set (((y + j) * wd + (x + width - 1)).toNat) ⟨35, fg, finalBg⟩
      else b1)
    buf

/-- `TR_DrawRectangleLines`: draws the `#` border of the rectangle — the top
and bottom rows fully, then the left/right columns excluding the corners. -/
def TR_DrawRectangleLines (x y width height : ℤ) (fg_color bg_color : Color)
    (st : EngineState) : EngineState :=
  if ¬ st.windowOpen = true then st
  else
    let finalBg := __tr_resolve_bg bg_color st
    let buf1 := __tr_lines_tb_loop x y width height st.bufferWidth st.bufferHeight
      fg_color finalBg st.screenBuffer
    let buf2 := __tr_lines_lr_loop x y width height st.bufferWidth st.bufferHeight
      fg_color finalBg buf1
    { st with screenBuffer := buf2 }

/-- A coordinate pair addressing a cell outside the visible
`[0,width) × [0,height)` grid. -/
def cellOOB (wd ht : ℕ) (x y : ℤ) : Prop :=
  x < 0 ∨ (wd : ℤ) ≤ x ∨ y < 0 ∨ (ht : ℤ) ≤ y

instance (wd ht : ℕ) (x y : ℤ) : Decidable (cellOOB wd ht x y) := by
  unfold cellOOB; infer_instance

/-- A left fold whose step never moves off the accumulator fixes it. -/
lemma foldl_fixed {α β : Type} (f : β → α → β) (l : List α) (b : β)
    (h : ∀ b' a, a ∈ l → f b' a = b') : l.foldl f b = b := by
  induction l generalizing b with
  | nil => rfl
  | cons a t ih =>
    rw [List.foldl_cons, h b a (by simp)]
    exact ih b (fun b' a' ha' => h b' a' (by simp [ha']))

lemma engine_set_screen_self (st : EngineState) :
    { st with screenBuffer := st.screenBuffer } = st := rfl

/-- A concrete open 2×2 session used to instantiate witnesses. -/
def exSt : EngineState :=
  { windowOpen := true, frameTimeUs := 0, keyBuffer := 0,
    screenBuffer := List.replicate 4 ⟨32, BLACK, BLACK⟩,
    prevScreenBuffer := List.replicate 4 ⟨32, BLACK, BLACK⟩,
    bufferWidth := 2, bufferHeight := 2, currentBgColor := BLACK,
    initialWidth := 2, initialHeight := 2,
    zBuffer := List.replicate 4 1, zBufferSize := 4 }

/-- C4: drawing calls whose addressed cells all lie outside
`[0,width) × [0,height)` leave the engine state (in particular the frame
buffer) completely unchanged, for each of `TR_DrawPixel`, `TR_DrawText`,
`TR_DrawRectangle` and `TR_DrawRectangleLines`. -/
theorem c4_bounds_clamping :
    (∀ (st : EngineState) (x y : ℤ) (color : Color),
      cellOOB st.bufferWidth st.bufferHeight x y → TR_DrawPixel x y color st = st) ∧
    (∀ (st : EngineState) (text : List ℤ) (x y fontSize : ℤ) (fg bg : Color),
      (∀ i : ℕ, i < text.length →
        cellOOB st.bufferWidth st.bufferHeight (x + (i : ℤ)) y) →
      TR_DrawText text x y fontSize fg bg st = st) ∧
    (∀ (st : EngineState) (x y width height : ℤ) (fg bg : Color),
      (∀ i : ℕ, i < width.toNat → ∀ j : ℕ, j < height.toNat →
        cellOOB st.bufferWidth st.bufferHeight (x + (i : ℤ)) (y + (j : ℤ))) →
      TR_DrawRectangle x y width height fg bg st = st) ∧
    (∀ (st : EngineState) (x y width height : ℤ) (fg bg : Color),
      (∀ i : ℕ, i < width.toNat →
        cellOOB st.bufferWidth st.bufferHeight (x + (i : ℤ)) y ∧
        cellOOB st.bufferWidth st.bufferHeight (x + (i : ℤ)) (y + height - 1)) →
      (∀ n : ℕ, n < (height - 2).toNat →
        cellOOB st.bufferWidth st.bufferHeight x (y + ((n : ℤ) + 1)) ∧
        cellOOB st.bufferWidth st.bufferHeight (x + width - 1) (y + ((n : ℤ) + 1))) →
      TR_DrawRectangleLines x y width height fg bg st = st) := by
  refine ⟨?_, ?_, ?_, ?_⟩
  · intro st x y color h
    unfold TR_DrawPixel
    rw [if_pos]
    unfold cellOOB at h
    tauto
  · intro st text x y fontSize fg bg h
    unfold TR_DrawText
    split
    · rfl
    · rename_i hcond
      push_neg at hcond
      have hloop : __tr_text_loop text x y st.bufferWidth fg
          (__tr_resolve_bg bg st) st.screenBuffer = st.screenBuffer := by
        apply foldl_fixed
        intro b i hi
        rw [List.mem_range] at hi
        have hoob := h i hi
        unfold cellOOB at hoob
        rw [if_neg (by omega)]
      simp only [hloop]
  · intro st x y width height fg bg h
    unfold TR_DrawRectangle
    split
    · rfl
    · have hloop : __tr_rect_loop x y width height st.bufferWidth st.bufferHeight fg
          (__tr_resolve_bg bg st) st.screenBuffer = st.screenBuffer := by
        apply foldl_fixed
        intro bj j hj
        rw [List.mem_range] at hj
        apply foldl_fixed
        intro b i hi
        rw [List.mem_range] at hi
        have hoob := h i hi j hj
        unfold cellOOB at hoob
        rw [if_neg (by omega)]
      simp only [hloop]
  · intro st x y width height fg bg htb hlr
    unfold TR_DrawRectangleLines
    split
    · rfl
    · have hloop1 : __tr_lines_tb_loop x y width height st.bufferWidth st.bufferHeight fg
          (__tr_resolve_bg bg st) st.screenBuffer = st.screenBuffer := by
        apply foldl_fixed
        intro b i hi
        rw [List.mem_range] at hi
        obtain ⟨ha, hb2⟩ := htb i hi
        unfold cellOOB at ha hb2
        rw [if_neg (by omega), if_neg (by omega)]
      have hloop2 : __tr_lines_lr_loop x y width height st.bufferWidth st.bufferHeight fg
          (__tr_resolve_bg bg st) st.screenBuffer = st.screenBuffer := by
        apply foldl_fixed
        intro b j hj
        rw [List.mem_map] at hj
        obtain ⟨n, hn, rfl⟩ := hj
        rw [List.mem_range] at hn
        obtain ⟨ha, hb2⟩ := hlr n hn
        unfold cellOOB at ha hb2
        rw [if_neg (by omega), if_neg (by omega)]
      simp only [hloop1, hloop2]

/-- Witness for C4: on a concrete open 2×2 session, fully out-of-range calls
of all four primitives leave the state unchanged. -/
theorem c4_bounds_clamping_witness :
    TR_DrawPixel 5 7 RED exSt = exSt ∧
    TR_DrawText [72, 105] (-9) 0 1 RED BLUE exSt = exSt ∧
    TR_DrawRectangle (-10) (-10) 3 3 RED BLUE exSt = exSt ∧
    TR_DrawRectangleLines 10 10 4 4 RED BLANK exSt = exSt :=
  ⟨c4_bounds_clamping.1 exSt 5 7 RED (by decide),
   c4_bounds_clamping.2.1 exSt [72, 105] (-9) 0 1 RED BLUE (by decide),
   c4_bounds_clamping.2.2.1 exSt (-10) (-10) 3 3 RED BLUE (by decide),
   c4_bounds_clamping.2.2.2 exSt 10 10 4 4 RED BLANK (by decide) (by decide)⟩

/-- A left fold all of whose steps fix the given start value returns it. -/
lemma foldl_eq_self {α β : Type} (f : β → α → β) (l : List α) (b : β)
    (h : ∀ a ∈ l, f b a = b) : l.foldl f b = b := by
  induction l with
  | nil => rfl
  | cons a t ih =>
    rw [List.foldl_cons, h a (by simp)]
    exact ih (fun a' ha' => h a' (by simp [ha']))

/-- The spec-side reading of C6: iterate `TR_DrawPixel` row-major over every
position of the `width × height` rectangle anchored at `(x, y)`. -/
def rectPixelSweep (x y width height : ℤ) (color : Color) (st : EngineState) :
    EngineState :=
  (List.range height.toNat).foldl
    (fun sj (j : ℕ) =>
      (List.range width.toNat).foldl
        (fun s (i : ℕ) => TR_DrawPixel (x + (i : ℤ)) (y + (j : ℤ)) color s) sj)
    st

lemma drawPixel_as_buffer (st : EngineState) (hopen : st.windowOpen = true)
    (x y : ℤ) (c : Color) (b : List Cell) :
    TR_DrawPixel x y c { st with screenBuffer := b } =
    { st with
        screenBuffer :=
          if 0 ≤ x ∧ x < (st.bufferWidth : ℤ) ∧ 0 ≤ y ∧ y < (st.bufferHeight : ℤ) then
            b.set ((y * st.bufferWidth + x).toNat) ⟨32, c, c⟩
          else b } := by
  unfold TR_DrawPixel
  by_cases hg : 0 ≤ x ∧ x < (st.bufferWidth : ℤ) ∧ 0 ≤ y ∧ y < (st.bufferHeight : ℤ)
  · rw [if_neg (by simp [hopen]; omega), if_pos hg]
  · rw [if_pos (by simp [hopen]; omega), if_neg hg]

lemma sweep_row_as_buffer (st : EngineState) (hopen : st.windowOpen = true)
    (x y : ℤ) (c : Color) (l : List ℕ) (b : List Cell) :
    l.foldl (fun s (i : ℕ) => TR_DrawPixel (x + (i : ℤ)) y c s)
        { st with screenBuffer := b } =
    { st with
        screenBuffer :=
          l.foldl
            (fun bb (i : ℕ) =>
              if 0 ≤ x + (i : ℤ) ∧ x + (i : ℤ) < (st.bufferWidth : ℤ) ∧ 0 ≤ y ∧
                  y < (st.bufferHeight : ℤ) then
                bb.set ((y * st.bufferWidth + (x + (i : ℤ))).toNat) ⟨32, c, c⟩
              else bb)
            b } := by
  induction l generalizing b with
  | nil => rfl
  | cons a t ih =>
    rw [List.foldl_cons, List.foldl_cons, drawPixel_as_buffer st hopen _ _ c b]
    exact ih _

lemma sweep_as_buffer (st : EngineState) (hopen : st.windowOpen = true)
    (x y width height : ℤ) (c : Color) :
    rectPixelSweep x y width height c st =
    { st with
        screenBuffer :=
          (List.range height.toNat).foldl
            (fun bj (j : ℕ) =>
              (List.range width.toNat).foldl
                (fun bb (i : ℕ) =>
                  if 0 ≤ x + (i : ℤ) ∧ x + (i : ℤ) < (st.bufferWidth : ℤ) ∧
                      0 ≤ y + (j : ℤ) ∧ y + (j : ℤ) < (st.bufferHeight : ℤ) then
                    bb.set (((y + (j : ℤ)) * st.bufferWidth + (x + (i : ℤ))).toNat)
                      ⟨32, c, c⟩
                  else bb)
                bj)
            st.screenBuffer } := by
  unfold rectPixelSweep
  rw [show st = { st with screenBuffer := st.screenBuffer } from rfl]
  generalize st.screenBuffer = b0
  induction (List.range height.toNat) generalizing b0 with
  | nil => rfl
  | cons a t ih =>
    rw [List.foldl_cons, List.foldl_cons, sweep_row_as_buffer st hopen x _ c _ b0]
    exact ih _

/-- Counterexample to C6 as stated: on a concrete open 2×2 session,
`TR_DrawRectangle 0 0 1 1 RED BLUE` produces a cell whose foreground and
background differ, which no `TR_DrawPixel` call can produce (`TR_DrawPixel`
always writes fg = bg); in particular the cell matches neither the `RED` nor
the `BLUE` per-position pixel write. -/
theorem c6_rect_pixel_counterexample :
    ((TR_DrawRectangle 0 0 1 1 RED BLUE exSt).screenBuffer.getD 0
        ⟨0, BLACK, BLACK⟩).fg_color ≠
      ((TR_DrawRectangle 0 0 1 1 RED BLUE exSt).screenBuffer.getD 0
        ⟨0, BLACK, BLACK⟩).bg_color ∧
    (TR_DrawRectangle 0 0 1 1 RED BLUE exSt).screenBuffer.getD 0 ⟨0, BLACK, BLACK⟩ ≠
      (TR_DrawPixel 0 0 RED exSt).screenBuffer.getD 0 ⟨0, BLACK, BLACK⟩ ∧
    (TR_DrawRectangle 0 0 1 1 RED BLUE exSt).screenBuffer.getD 0 ⟨0, BLACK, BLACK⟩ ≠
      (TR_DrawPixel 0 0 BLUE exSt).screenBuffer.getD 0 ⟨0, BLACK, BLACK⟩ ∧
    ((TR_DrawPixel 0 0 RED exSt).screenBuffer.getD 0 ⟨0, BLACK, BLACK⟩).fg_color =
      ((TR_DrawPixel 0 0 RED exSt).screenBuffer.getD 0 ⟨0, BLACK, BLACK⟩).bg_color := by
  decide

/-- C6 as amended: `TR_DrawRectangle` writes every in-bounds cell of the
rectangle with glyph space, the given foreground and the resolved background,
row-major; this coincides with per-position `TR_DrawPixel` calls exactly when
the foreground equals the resolved background color. -/
theorem c6_rect_pixel_agreement (st : EngineState) (x y width height : ℤ)
    (fg bg : Color) (h : __tr_resolve_bg bg st = fg) :
    TR_DrawRectangle x y width height fg bg st = rectPixelSweep x y width height fg st := by
  unfold TR_DrawRectangle
  by_cases hopen : st.windowOpen = true
  · rw [if_neg (by simp [hopen])]
    rw [sweep_as_buffer st hopen x y width height fg]
    unfold __tr_rect_loop
    rw [h]
  · rw [if_pos (by simp [hopen])]
    symm
    unfold rectPixelSweep
    apply foldl_eq_self
    intro j _
    apply foldl_eq_self
    intro i _
    unfold TR_DrawPixel
    rw [if_pos (by simp [hopen])]

/-- Witness for C6's amended theorem: with foreground equal to the resolved
background, a concrete rectangle call equals the row-major pixel sweep. -/
theorem c6_rect_pixel_agreement_witness :
    TR_DrawRectangle 0 0 2 1 RED RED exSt = rectPixelSweep 0 0 2 1 RED exSt :=
  c6_rect_pixel_agreement exSt 0 0 2 1 RED RED (by decide)

/-- One flush-time backend write of `TR_EndDrawing`: the cursor move, color
set and glyph print that the source emits for one changed cell, recorded as
the cell position and the cell contents sent to the terminal. -/
structure WriteOp where
  x : ℕ
  y : ℕ
  cell : Cell
deriving DecidableEq

/-- The change test of `TR_EndDrawing`'s loop body: character differs, or
foreground or background differ under `__tr_colors_equal` (alpha ignored). -/
def __tr_cell_changed (c p : Cell) : Bool :=
  (c.character != p.character) || (! __tr_colors_equal c.fg_color p.fg_color) ||
    (! __tr_colors_equal c.bg_color p.bg_color)

/-- The default cell used to read the modelled buffers; the engine's own
buffers are always exactly `width * height` cells, so in-range reads never
see it. -/
def __tr_default_cell : Cell := ⟨32, BLACK, BLACK⟩

/-- The double scan of `TR_EndDrawing`: row-major over all cells, appending
one write for every cell whose contents changed since the previous frame. -/
def __tr_flush_writes (wd ht : ℕ) (cur prev : List Cell) : List WriteOp :=
  (List.range ht).foldl
    (fun acc (y : ℕ) =>
      (List.range wd).foldl
        (fun acc2 (x : ℕ) =>
          if __tr_cell_changed (cur.getD (y * wd + x) __tr_default_cell)
              (prev.getD (y * wd + x) __tr_default_cell) = true then
            acc2 ++ [⟨x, y, cur.getD (y * wd + x) __tr_default_cell⟩]
          else acc2)
        acc)
    []

/-- `TR_EndDrawing`: emits the diffed writes, then copies the current buffer
over the previous buffer (`memcpy`, not a swap). The frame-pacing sleep is a
pure timing side effect with no observable state, hence not modelled. -/
def TR_EndDrawing (st : EngineState) : List WriteOp × EngineState :=
  if ¬ st.windowOpen = true then ([], st)
  else
    (__tr_flush_writes st.bufferWidth st.bufferHeight st.screenBuffer st.prevScreenBuffer,
     { st with prevScreenBuffer := st.screenBuffer })

/-- Appending-if folds are filterMaps. -/
lemma foldl_if_append {α β : Type} (p : α → Bool) (g : α → β) (l : List α)
    (init : List β) :
    l.foldl (fun acc a => if p a = true then acc ++ [g a] else acc) init =
      init ++ l.filterMap (fun a => if p a = true then some (g a) else none) := by
  induction l generalizing init with
  | nil => simp
  | cons a t ih =>
    by_cases h : p a = true <;>
      simp [h, ih, List.filterMap_cons, List.append_assoc]

/-- Folding row appends concatenates the rows. -/
lemma foldl_append_rows {α β : Type} (row : α → List β) (l : List α)
    (init : List β) :
    l.foldl (fun acc a => acc ++ row a) init = init ++ l.flatMap row := by
  induction l generalizing init with
  | nil => simp
  | cons a t ih => simp [ih, List.append_assoc]

/-- The row list emitted for scanline `y` by the flush differ. -/
def __tr_flush_row (wd : ℕ) (cur prev : List Cell) (y : ℕ) : List WriteOp :=
  (List.range wd).filterMap
    (fun x =>
      if __tr_cell_changed (cur.getD (y * wd + x) __tr_default_cell)
          (prev.getD (y * wd + x) __tr_default_cell) = true then
        some ⟨x, y, cur.getD (y * wd + x) __tr_default_cell⟩
      else none)

lemma flush_writes_eq (wd ht : ℕ) (cur prev : List Cell) :
    __tr_flush_writes wd ht cur prev =
      (List.range ht).flatMap (__tr_flush_row wd cur prev) := by
  unfold __tr_flush_writes
  have h : ∀ (l : List ℕ) (init : List WriteOp),
      l.foldl
        (fun acc (y : ℕ) =>
          (List.range wd).foldl
            (fun acc2 (x : ℕ) =>
              if __tr_cell_changed (cur.getD (y * wd + x) __tr_default_cell)
                  (prev.getD (y * wd + x) __tr_default_cell) = true then
                acc2 ++ [⟨x, y, cur.getD (y * wd + x) __tr_default_cell⟩]
              else acc2)
            acc)
        init = init ++ l.flatMap (__tr_flush_row wd cur prev) := by
    intro l
    induction l with
    | nil => simp
    | cons a t ih =>
      intro init
      rw [List.foldl_cons, foldl_if_append, ih, List.flatMap_cons, List.append_assoc]
      rfl
  rw [h]
  rfl

/-- The spec-level cell difference of the amended C1: the glyph differs or the
fg/bg colors differ in an RGB component (alpha not considered). -/
def specCellChanged (c p : Cell) : Prop :=
  c.character ≠ p.character ∨
    c.fg_color.r ≠ p.fg_color.r ∨ c.fg_color.g ≠ p.fg_color.g ∨
    c.fg_color.b ≠ p.fg_color.b ∨
    c.bg_color.r ≠ p.bg_color.r ∨ c.bg_color.g ≠ p.bg_color.g ∨
    c.bg_color.b ≠ p.bg_color.b

instance (c p : Cell) : Decidable (specCellChanged c p) := by
  unfold specCellChanged; infer_instance

lemma cell_changed_iff (c p : Cell) :
    __tr_cell_changed c p = true ↔ specCellChanged c p := by
  unfold __tr_cell_changed __tr_colors_equal specCellChanged
  simp only [Bool.or_eq_true, bne_iff_ne, Bool.not_eq_true', Bool.and_eq_false_iff,
    beq_eq_false_iff_ne, ne_eq]
  tauto

lemma mem_flush_writes (wd ht : ℕ) (cur prev : List Cell) (w : WriteOp) :
    w ∈ __tr_flush_writes wd ht cur prev ↔
      w.x < wd ∧ w.y < ht ∧
      specCellChanged (cur.getD (w.y * wd + w.x) __tr_default_cell)
        (prev.getD (w.y * wd + w.x) __tr_default_cell) ∧
      w.cell = cur.getD (w.y * wd + w.x) __tr_default_cell := by
  rw [flush_writes_eq]
  rw [List.mem_flatMap]
  constructor
  · rintro ⟨y, hy, hw⟩
    rw [List.mem_range] at hy
    unfold __tr_flush_row at hw
    rw [List.mem_filterMap] at hw
    obtain ⟨x, hx, heq⟩ := hw
    rw [List.mem_range] at hx
    split at heq
    · rename_i hch
      cases heq
      exact ⟨hx, hy, (cell_changed_iff _ _).mp hch, rfl⟩
    · cases heq
  · rintro ⟨hx, hy, hch, hcell⟩
    refine ⟨w.y, List.mem_range.mpr hy, ?_⟩
    unfold __tr_flush_row
    rw [List.mem_filterMap]
    refine ⟨w.x, List.mem_range.mpr hx, ?_⟩
    rw [if_pos ((cell_changed_iff _ _).mpr hch)]
    cases w with
    | mk wx wy wc => simp only at hcell ⊢; rw [hcell]

/-- Pairwise property transported through `flatMap`. -/
lemma pairwise_flatMap_of {α β : Type} {R : β → β → Prop} (l : List α)
    (f : α → List β) (h1 : ∀ a ∈ l, (f a).Pairwise R)
    (h2 : l.Pairwise (fun a b => ∀ u ∈ f a, ∀ v ∈ f b, R u v)) :
    (l.flatMap f).Pairwise R := by
  induction l with
  | nil => simp
  | cons a t ih =>
    rw [List.flatMap_cons, List.pairwise_append]
    rw [List.pairwise_cons] at h2
    refine ⟨h1 a (by simp), ih (fun a' ha' => h1 a' (by simp [ha'])) h2.2, ?_⟩
    intro u hu v hv
    rw [List.mem_flatMap] at hv
    obtain ⟨b, hb, hvb⟩ := hv
    exact h2.1 b hb u hu v hvb

/-- Each cell position occurs at most once in the flush write list. -/
lemma flush_writes_pairwise (wd ht : ℕ) (cur prev : List Cell) :
    (__tr_flush_writes wd ht cur prev).Pairwise
      (fun o1 o2 => o1.x ≠ o2.x ∨ o1.y ≠ o2.y) := by
  rw [flush_writes_eq]
  apply pairwise_flatMap_of
  · intro y _
    unfold __tr_flush_row
    rw [List.pairwise_filterMap]
    apply List.Pairwise.imp ?_ (List.pairwise_lt_range wd)
    intro a b hab u hu v hv
    split at hu <;> cases hu
    split at hv <;> cases hv
    left
    dsimp only
    omega
  · apply List.Pairwise.imp ?_ (List.pairwise_lt_range ht)
    intro a b hab u hu v hv
    unfold __tr_flush_row at hu hv
    rw [List.mem_filterMap] at hu hv
    obtain ⟨xu, _, hequ⟩ := hu
    obtain ⟨xv, _, heqv⟩ := hv
    split at hequ <;> cases hequ
    split at heqv <;> cases heqv
    right
    dsimp only
    omega

/-- A concrete open 1×1 session whose current and previous frames differ only
in the foreground alpha channel at the single cell. -/
def exStAlpha : EngineState :=
  { windowOpen := true, frameTimeUs := 0, keyBuffer := 0,
    screenBuffer := [⟨32, ⟨0, 0, 0, 255⟩, BLACK⟩],
    prevScreenBuffer := [⟨32, ⟨0, 0, 0, 0⟩, BLACK⟩],
    bufferWidth := 1, bufferHeight := 1, currentBgColor := BLACK,
    initialWidth := 1, initialHeight := 1,
    zBuffer := [1], zBufferSize := 1 }

/-- A concrete open 1×1 session whose single cell visibly changed. -/
def exStWrite : EngineState :=
  { windowOpen := true, frameTimeUs := 0, keyBuffer := 0,
    screenBuffer := [⟨65, RED, BLUE⟩],
    prevScreenBuffer := [⟨32, BLACK, BLACK⟩],
    bufferWidth := 1, bufferHeight := 1, currentBgColor := BLACK,
    initialWidth := 1, initialHeight := 1,
    zBuffer := [1], zBufferSize := 1 }

/-- Counterexample to C1 as stated: on a concrete open 1×1 session whose
current and previous cells hold different `(character, fg, bg)` values (the
foreground colors differ, in the alpha channel), `TR_EndDrawing` emits no
backend write at all — the differ compares colors with `__tr_colors_equal`,
which ignores alpha, so not every cell whose stored triple differs gets a
write. -/
theorem c1_diff_counterexample :
    exStAlpha.screenBuffer.getD 0 __tr_default_cell ≠
      exStAlpha.prevScreenBuffer.getD 0 __tr_default_cell ∧
    (exStAlpha.screenBuffer.getD 0 __tr_default_cell).fg_color ≠
      (exStAlpha.prevScreenBuffer.getD 0 __tr_default_cell).fg_color ∧
    (TR_EndDrawing exStAlpha).1 = [] := by
  decide

/-- C1 as amended: for every open session with same-sized current/previous
buffers, `TR_EndDrawing` emits exactly one backend write per cell position at
which the current and previous cells differ in character or in the RGB
components of the fg/bg colors (alpha excluded), none for other cells, each
write carrying the current cell; afterwards the previous buffer equals the
current buffer (full copy, the current buffer is untouched). -/
theorem c1_flush_diff (st : EngineState) (hopen : st.windowOpen = true)
    (hlen1 : st.screenBuffer.length = st.bufferWidth * st.bufferHeight)
    (hlen2 : st.prevScreenBuffer.length = st.bufferWidth * st.bufferHeight) :
    (∀ w : WriteOp, w ∈ (TR_EndDrawing st).1 ↔
      (w.x < st.bufferWidth ∧ w.y < st.bufferHeight ∧
        specCellChanged
          (st.screenBuffer.getD (w.y * st.bufferWidth + w.x) __tr_default_cell)
          (st.prevScreenBuffer.getD (w.y * st.bufferWidth + w.x) __tr_default_cell) ∧
        w.cell = st.screenBuffer.getD (w.y * st.bufferWidth + w.x) __tr_default_cell)) ∧
    (TR_EndDrawing st).1.Pairwise (fun o1 o2 => o1.x ≠ o2.x ∨ o1.y ≠ o2.y) ∧
    (TR_EndDrawing st).2.prevScreenBuffer = st.screenBuffer ∧
    (TR_EndDrawing st).2.screenBuffer = st.screenBuffer := by
  unfold TR_EndDrawing
  rw [if_neg (by simp [hopen])]
  exact ⟨fun w => mem_flush_writes _ _ _ _ w, flush_writes_pairwise _ _ _ _, rfl, rfl⟩

/-- Witness for C1's amended theorem on a concrete 1×1 session with a visibly
changed cell: the write for that cell is emitted and the previous buffer
becomes the current one. -/
theorem c1_flush_diff_witness :
    (⟨0, 0, ⟨65, RED, BLUE⟩⟩ : WriteOp) ∈ (TR_EndDrawing exStWrite).1 ∧
    (TR_EndDrawing exStWrite).2.prevScreenBuffer = exStWrite.screenBuffer := by
  have h := c1_flush_diff exStWrite rfl (by decide) (by decide)
  exact ⟨(h.1 ⟨0, 0, ⟨65, RED, BLUE⟩⟩).mpr (by decide), h.2.2.1⟩

lemma resolve_sentinel (a : ℕ) (st : EngineState) :
    __tr_resolve_bg ⟨1, 0, 0, a⟩ st = __tr_resolve_bg BLANK st := by
  unfold __tr_resolve_bg
  rw [if_pos (by simp [__tr_colors_equal, BLANK]),
    if_pos (by simp [__tr_colors_equal, BLANK])]

/-- C10: color comparisons ignore alpha. `__tr_colors_equal` is true whenever
the RGB components agree, for any alpha values; consequently every color with
RGB `(1,0,0)` acts as the `BLANK` transparent/inherit sentinel in
`TR_DrawText`, `TR_DrawRectangle` and `TR_DrawRectangleLines`, and a cell
that differs from the previous frame at most in alpha (same character, same
RGB components of fg and bg) is never re-emitted by the flush differ. -/
theorem c10_alpha_ignored :
    (∀ c1 c2 : Color, c1.r = c2.r → c1.g = c2.g → c1.b = c2.b →
      __tr_colors_equal c1 c2 = true) ∧
    (∀ (a : ℕ) (st : EngineState) (text : List ℤ) (x y fontSize : ℤ) (fg : Color),
      TR_DrawText text x y fontSize fg ⟨1, 0, 0, a⟩ st =
        TR_DrawText text x y fontSize fg BLANK st) ∧
    (∀ (a : ℕ) (st : EngineState) (x y width height : ℤ) (fg : Color),
      TR_DrawRectangle x y width height fg ⟨1, 0, 0, a⟩ st =
        TR_DrawRectangle x y width height fg BLANK st) ∧
    (∀ (a : ℕ) (st : EngineState) (x y width height : ℤ) (fg : Color),
      TR_DrawRectangleLines x y width height fg ⟨1, 0, 0, a⟩ st =
        TR_DrawRectangleLines x y width height fg BLANK st) ∧
    (∀ (st : EngineState) (x y : ℕ), x < st.bufferWidth → y < st.bufferHeight →
      ¬ specCellChanged
          (st.screenBuffer.getD (y * st.bufferWidth + x) __tr_default_cell)
          (st.prevScreenBuffer.getD (y * st.bufferWidth + x) __tr_default_cell) →
      ∀ w ∈ (TR_EndDrawing st).1, ¬ (w.x = x ∧ w.y = y)) := by
  refine ⟨?_, ?_, ?_, ?_, ?_⟩
  · intro c1 c2 hr hg hb
    unfold __tr_colors_equal
    simp [hr, hg, hb]
  · intro a st text x y fontSize fg
    unfold TR_DrawText
    rw [resolve_sentinel]
  · intro a st x y width height fg
    unfold TR_DrawRectangle
    rw [resolve_sentinel]
  · intro a st x y width height fg
    unfold TR_DrawRectangleLines
    rw [resolve_sentinel]
  · intro st x y hx hy hnc w hw hxy
    unfold TR_EndDrawing at hw
    by_cases hopen : st.windowOpen = true
    · rw [if_neg (by simp [hopen])] at hw
      have hmem := (mem_flush_writes _ _ _ _ w).mp hw
      apply hnc
      have hxeq : w.x = x := hxy.1
      have hyeq : w.y = y := hxy.2
      rw [← hxeq, ← hyeq]
      exact hmem.2.2.1
    · rw [if_pos (by simp [hopen])] at hw
      simp at hw

/-- Witness for C10 at concrete inputs: alpha-only differences are equal
colors, the RGB-(1,0,0) sentinel with nonzero alpha behaves as `BLANK` in all
three primitives, and the alpha-only-changed 1×1 session emits no write for
its cell. -/
theorem c10_alpha_ignored_witness :
    __tr_colors_equal ⟨5, 6, 7, 0⟩ ⟨5, 6, 7, 9⟩ = true ∧
    TR_DrawText [65] 0 0 1 RED ⟨1, 0, 0, 77⟩ exSt =
      TR_DrawText [65] 0 0 1 RED BLANK exSt ∧
    TR_DrawRectangle 0 0 1 1 RED ⟨1, 0, 0, 77⟩ exSt =
      TR_DrawRectangle 0 0 1 1 RED BLANK exSt ∧
    TR_DrawRectangleLines 0 0 2 2 RED ⟨1, 0, 0, 77⟩ exSt =
      TR_DrawRectangleLines 0 0 2 2 RED BLANK exSt ∧
    (∀ w ∈ (TR_EndDrawing exStAlpha).1, ¬ (w.x = 0 ∧ w.y = 0)) := by
  have h := c10_alpha_ignored
  exact ⟨h.1 ⟨5, 6, 7, 0⟩ ⟨5, 6, 7, 9⟩ rfl rfl rfl,
    h.2.1 77 exSt [65] 0 0 1 RED,
    h.2.2.1 77 exSt 0 0 1 1 RED,
    h.2.2.2.1 77 exSt 0 0 2 2 RED,
    h.2.2.2.2 exStAlpha 0 0 (by decide) (by decide) (by decide)⟩

/-- POSIX `__tr_get_key_nonblocking`: `input = none` models `select` reporting
no pending data (the C function returns 0), `some buf` models the bytes
returned by `read` (`buf = []` is a zero-byte read, also 0). Escape decoding
follows the source: 3-byte CSI arrows, 3-byte SS3 F1–F4, anything else
(including the 4-byte F5–F12 branch, whose `strcmp` compares one byte past
the received data and cannot match a complete sequence) yields "no key" 0. -/
def __tr_get_key_nonblocking (input : Option (List ℤ)) : ℤ :=
  match input with
  | none => 0
  | some buf =>
    if buf.length = 0 then 0
    else if buf.getD 0 0 = 27 then
      if buf.length = 3 ∧ buf.getD 1 0 = 91 then
        if buf.getD 2 0 = 65 then 256
        else if buf.getD 2 0 = 66 then 257
        else if buf.getD 2 0 = 67 then 259
        else if buf.getD 2 0 = 68 then 258
        else 0
      else if buf.length = 3 ∧ buf.getD 1 0 = 79 then
        if buf.getD 2 0 = 80 then 260
        else if buf.getD 2 0 = 81 then 261
        else if buf.getD 2 0 = 82 then 262
        else if buf.getD 2 0 = 83 then 263
        else 0
      else 0
    else buf.getD 0 0

/-- `TR_BeginDrawing`: no-op when closed; exits (modelled as `none`) when the
terminal size changed from the initial one; otherwise stores the newly
sampled key into the last-key slot and re-primes the current buffer with the
current background color. The frame-start timestamp is a pure timing side
effect and is not modelled. -/
def TR_BeginDrawing (currentWidth currentHeight : ℕ) (input : Option (List ℤ))
    (st : EngineState) : Option EngineState :=
  if ¬ st.windowOpen = true then some st
  else if currentWidth ≠ st.initialWidth ∨ currentHeight ≠ st.initialHeight then none
  else
    some { st with
            keyBuffer := __tr_get_key_nonblocking input,
            screenBuffer :=
              List.replicate (st.bufferWidth * st.bufferHeight)
                ⟨32, st.currentBgColor, st.currentBgColor⟩ }

/-- `TR_GetKeyPressed`: returns the last-key slot and clears it. -/
def TR_GetKeyPressed (st : EngineState) : ℤ × EngineState :=
  (st.keyBuffer, { st with keyBuffer := 0 })

/-- A concrete open 2×2 session whose last-key slot holds key 97. -/
def exStKey : EngineState := { exSt with keyBuffer := 97 }

/-- Counterexample to C2 as stated: on a concrete open session holding key 97,
sampling at `TR_BeginDrawing` with no pending backend key sets the last-key
slot to 0 — the slot is cleared automatically, not retained: the source
unconditionally assigns `__tr_key_buffer = __tr_get_key_nonblocking()`, which
returns 0 when nothing is pending. -/
theorem c2_key_retention_counterexample :
    exStKey.keyBuffer = 97 ∧
    (TR_BeginDrawing 2 2 none exStKey).map EngineState.keyBuffer = some 0 := by
  decide

/-- C2 as amended: `TR_BeginDrawing` overwrites the last-key slot with the
newly sampled key every frame; when the backend reports no pending key the
sampled value is 0, so the slot is cleared automatically rather than
retained. `TR_GetKeyPressed` returns the slot's current value and clears it. -/
theorem c2_key_sampling (st : EngineState) (currentWidth currentHeight : ℕ)
    (input : Option (List ℤ)) (hopen : st.windowOpen = true)
    (hw : currentWidth = st.initialWidth) (hh : currentHeight = st.initialHeight) :
    ((TR_BeginDrawing currentWidth currentHeight input st).map
        EngineState.keyBuffer = some (__tr_get_key_nonblocking input)) ∧
    __tr_get_key_nonblocking none = 0 ∧
    (TR_GetKeyPressed st).1 = st.keyBuffer ∧
    (TR_GetKeyPressed st).2.keyBuffer = 0 := by
  unfold TR_BeginDrawing
  rw [if_neg (by simp [hopen]), if_neg (by simp [hw, hh])]
  exact ⟨rfl, rfl, rfl, rfl⟩

/-- Witness for C2's amended theorem on the concrete session holding key 97,
with no pending input and unchanged terminal size. -/
theorem c2_key_sampling_witness :
    ((TR_BeginDrawing 2 2 none exStKey).map EngineState.keyBuffer = some 0) ∧
    (TR_GetKeyPressed exStKey).1 = 97 ∧
    (TR_GetKeyPressed exStKey).2.keyBuffer = 0 := by
  have h := c2_key_sampling exStKey 2 2 none rfl rfl rfl
  exact ⟨h.1, h.2.2.1, h.2.2.2⟩

/-- `TR_InitWindow`: a no-op when a window is already open; queries the
terminal size (passed here as `termW`, `termH`), exits (`none`) when either
is zero, and otherwise allocates and initializes both cell buffers to blank
black cells of exactly `termW * termH` entries, records the initial size for
resize detection, resets the background, frame time and key slot, and marks
the window open. The `width`, `height` and `title` arguments are accepted but
never used for the buffer geometry (the title only names the terminal
window; allocation failure is outside the model; the `TR_3D` depth buffer is
always carried by the model). -/
def TR_InitWindow (width height : ℤ) (title : String) (termW termH : ℕ)
    (st : EngineState) : Option EngineState :=
  if st.windowOpen = true then some st
  else if termW = 0 ∨ termH = 0 then none
  else
    some { windowOpen := true, frameTimeUs := 0, keyBuffer := 0,
           screenBuffer := List.replicate (termW * termH) ⟨32, BLACK, BLACK⟩,
           prevScreenBuffer := List.replicate (termW * termH) ⟨32, BLACK, BLACK⟩,
           bufferWidth := termW, bufferHeight := termH,
           currentBgColor := BLACK, initialWidth := termW, initialHeight := termH,
           zBuffer := List.replicate (termW * termH) 1, zBufferSize := termW * termH }

/-- A concrete closed engine state prior to `TR_InitWindow`. -/
def exStClosed : EngineState := { exSt with windowOpen := false }

/-- C9: `TR_InitWindow` ignores its `width` and `height` (and `title`)
arguments entirely — the result is the same function of the terminal-size
query for all argument values — and on success the frame-buffer dimensions
(which all drawing-call clipping reads) and the resize-detection baseline are
exactly the queried terminal size. -/
theorem c9_init_ignores_size_args :
    (∀ (w h w' h' : ℤ) (title title' : String) (termW termH : ℕ) (st : EngineState),
      TR_InitWindow w h title termW termH st = TR_InitWindow w' h' title' termW termH st) ∧
    (∀ (w h : ℤ) (title : String) (termW termH : ℕ) (st st' : EngineState),
      st.windowOpen = false →
      TR_InitWindow w h title termW termH st = some st' →
      st'.bufferWidth = termW ∧ st'.bufferHeight = termH ∧
      st'.initialWidth = termW ∧ st'.initialHeight = termH) := by
  constructor
  · intro w h w' h' title title' termW termH st
    rfl
  · intro w h title termW termH st st' hclosed hinit
    unfold TR_InitWindow at hinit
    rw [if_neg (by simp [hclosed])] at hinit
    by_cases hz : termW = 0 ∨ termH = 0
    · rw [if_pos hz] at hinit
      cases hinit
    · rw [if_neg hz] at hinit
      cases hinit
      exact ⟨rfl, rfl, rfl, rfl⟩

/-- Witness for C9 at concrete inputs: two calls differing only in the
requested size and title coincide, and the resulting 10×5 geometry is the
terminal's, not the requested 80×24. -/
theorem c9_init_ignores_size_args_witness :
    TR_InitWindow 80 24 "a" 10 5 exStClosed = TR_InitWindow (-3) 999 "b" 10 5 exStClosed ∧
    (∃ st', TR_InitWindow 80 24 "a" 10 5 exStClosed = some st' ∧
      st'.bufferWidth = 10 ∧ st'.bufferHeight = 5) := by
  constructor
  · exact c9_init_ignores_size_args.1 80 24 (-3) 999 "a" "b" 10 5 exStClosed
  · obtain ⟨st', hst'⟩ : ∃ st', TR_InitWindow 80 24 "a" 10 5 exStClosed = some st' :=
      ⟨_, rfl⟩
    have h := c9_init_ignores_size_args.2 80 24 "a" 10 5 exStClosed st' (by decide) hst'
    exact ⟨st', hst', h.1, h.2.1⟩

/-- `TR_Vector3` of the `TR_3D` section; `float` components modelled as `ℚ`. -/
structure TR_Vector3 where
  x : ℚ
  y : ℚ
  z : ℚ
deriving DecidableEq

/-- `TR_Matrix4x4`: the 4×4 `float m[4][4]` array, row-major. -/
structure TR_Matrix4x4 where
  m : Fin 4 → Fin 4 → ℚ

lemma mat_ext (m1 m2 : TR_Matrix4x4) (h : ∀ i j, m1.m i j = m2.m i j) :
    m1 = m2 := by
  cases m1
  cases m2
  congr 1
  funext i j
  exact h i j

/-- `TR_MatrixIdentity`: zero matrix with ones on the diagonal. -/
def TR_MatrixIdentity : TR_Matrix4x4 :=
  ⟨fun i j => if i = j then 1 else 0⟩

/-- `TR_MatrixMultiply`: entry `(i,j)` accumulates `mat1.m[i][k] * mat2.m[k][j]`
over `k = 0..3` starting from the zero-initialized result, in source order. -/
def TR_MatrixMultiply (mat1 mat2 : TR_Matrix4x4) : TR_Matrix4x4 :=
  ⟨fun i j =>
    0 + mat1.m i 0 * mat2.m 0 j + mat1.m i 1 * mat2.m 1 j + mat1.m i 2 * mat2.m 2 j +
      mat1.m i 3 * mat2.m 3 j⟩

/-- `TR_Vector3Transform`: the homogeneous row-vector product
`(v.x, v.y, v.z, 1) · mat` followed by the perspective divide, which is
skipped exactly when the homogeneous `w` is zero (the source binds the four
components `x, y, z, w` once; they are written out here unchanged). -/
def TR_Vector3Transform (v : TR_Vector3) (mat : TR_Matrix4x4) : TR_Vector3 :=
  if (v.x * mat.m 0 3 + v.y * mat.m 1 3 + v.z * mat.m 2 3 + 1 * mat.m 3 3) ≠ 0 then
    ⟨(v.x * mat.m 0 0 + v.y * mat.m 1 0 + v.z * mat.m 2 0 + 1 * mat.m 3 0) /
        (v.x * mat.m 0 3 + v.y * mat.m 1 3 + v.z * mat.m 2 3 + 1 * mat.m 3 3),
     (v.x * mat.m 0 1 + v.y * mat.m 1 1 + v.z * mat.m 2 1 + 1 * mat.m 3 1) /
        (v.x * mat.m 0 3 + v.y * mat.m 1 3 + v.z * mat.m 2 3 + 1 * mat.m 3 3),
     (v.x * mat.m 0 2 + v.y * mat.m 1 2 + v.z * mat.m 2 2 + 1 * mat.m 3 2) /
        (v.x * mat.m 0 3 + v.y * mat.m 1 3 + v.z * mat.m 2 3 + 1 * mat.m 3 3)⟩
  else
    ⟨v.x * mat.m 0 0 + v.y * mat.m 1 0 + v.z * mat.m 2 0 + 1 * mat.m 3 0,
     v.x * mat.m 0 1 + v.y * mat.m 1 1 + v.z * mat.m 2 1 + 1 * mat.m 3 1,
     v.x * mat.m 0 2 + v.y * mat.m 1 2 + v.z * mat.m 2 2 + 1 * mat.m 3 2⟩

/-- `TR_MatrixRotateX`: starts from the identity and overwrites the four
middle entries. The source takes an angle and calls `cos`/`sin`; the
embedding takes the cosine `c` and sine `s` values themselves (at angle 0
these are exactly 1 and 0, also in IEEE `float`). -/
def TR_MatrixRotateX (c s : ℚ) : TR_Matrix4x4 :=
  ⟨fun i j =>
    if i = 1 ∧ j = 1 then c
    else if i = 1 ∧ j = 2 then s
    else if i = 2 ∧ j = 1 then -s
    else if i = 2 ∧ j = 2 then c
    else TR_MatrixIdentity.m i j⟩

/-- The homogeneous row vector `(v.x, v.y, v.z, 1)`. -/
def __tr_vec4 (v : TR_Vector3) : Fin 4 → ℚ := ![v.x, v.y, v.z, 1]

/-- The `j`-th component of the mathematical product
`(v.x, v.y, v.z, 1) · mat` (spec-side formulation with a Σ). -/
def homogeneousComponent (v : TR_Vector3) (mat : TR_Matrix4x4) (j : Fin 4) : ℚ :=
  ∑ k : Fin 4, __tr_vec4 v k * mat.m k j

lemma homogeneousComponent_eq (v : TR_Vector3) (mat : TR_Matrix4x4) (j : Fin 4) :
    homogeneousComponent v mat j =
      v.x * mat.m 0 j + v.y * mat.m 1 j + v.z * mat.m 2 j + 1 * mat.m 3 j := by
  unfold homogeneousComponent __tr_vec4
  rw [Fin.sum_univ_four]
  norm_num

/-- C7: `TR_Vector3Transform` computes the homogeneous product
`(x,y,z,w) = (v.x, v.y, v.z, 1) · mat`; when `w` is exactly 0 it skips the
divide and returns the pre-divide `(x,y,z)` unchanged (a defined total
fallback — no division by zero is ever performed), and when `w ≠ 0` it
returns `(x/w, y/w, z/w)`. -/
theorem c7_guarded_divide (v : TR_Vector3) (mat : TR_Matrix4x4) :
    (homogeneousComponent v mat 3 = 0 →
      TR_Vector3Transform v mat =
        ⟨homogeneousComponent v mat 0, homogeneousComponent v mat 1,
         homogeneousComponent v mat 2⟩) ∧
    (homogeneousComponent v mat 3 ≠ 0 →
      TR_Vector3Transform v mat =
        ⟨homogeneousComponent v mat 0 / homogeneousComponent v mat 3,
         homogeneousComponent v mat 1 / homogeneousComponent v mat 3,
         homogeneousComponent v mat 2 / homogeneousComponent v mat 3⟩) := by
  unfold TR_Vector3Transform
  rw [← homogeneousComponent_eq v mat 0, ← homogeneousComponent_eq v mat 1,
    ← homogeneousComponent_eq v mat 2, ← homogeneousComponent_eq v mat 3]
  constructor
  · intro h0
    rw [if_neg (by simp [h0])]
  · intro hne
    rw [if_pos hne]

/-- A concrete matrix whose last column is zero, so the homogeneous `w`
vanishes. -/
def exMatW0 : TR_Matrix4x4 := ⟨fun i j => if j = 3 then 0 else 1⟩

/-- Witness for C7: at a concrete vertex and the zero-last-column matrix the
fallback branch applies, and at the identity matrix (`w = 1`) the divide
branch returns the vertex unchanged. -/
theorem c7_guarded_divide_witness :
    homogeneousComponent ⟨2, 3, 4⟩ exMatW0 3 = 0 ∧
    TR_Vector3Transform ⟨2, 3, 4⟩ exMatW0 =
      ⟨homogeneousComponent ⟨2, 3, 4⟩ exMatW0 0,
       homogeneousComponent ⟨2, 3, 4⟩ exMatW0 1,
       homogeneousComponent ⟨2, 3, 4⟩ exMatW0 2⟩ ∧
    TR_Vector3Transform ⟨2, 3, 4⟩ TR_MatrixIdentity =
      ⟨homogeneousComponent ⟨2, 3, 4⟩ TR_MatrixIdentity 0 /
         homogeneousComponent ⟨2, 3, 4⟩ TR_MatrixIdentity 3,
       homogeneousComponent ⟨2, 3, 4⟩ TR_MatrixIdentity 1 /
         homogeneousComponent ⟨2, 3, 4⟩ TR_MatrixIdentity 3,
       homogeneousComponent ⟨2, 3, 4⟩ TR_MatrixIdentity 2 /
         homogeneousComponent ⟨2, 3, 4⟩ TR_MatrixIdentity 3⟩ := by
  have h0 : homogeneousComponent ⟨2, 3, 4⟩ exMatW0 3 = 0 := by
    rw [homogeneousComponent_eq]
    simp +decide [exMatW0]
  have h1 : homogeneousComponent ⟨2, 3, 4⟩ TR_MatrixIdentity 3 ≠ 0 := by
    rw [homogeneousComponent_eq]
    simp +decide [TR_MatrixIdentity]
  exact ⟨h0, (c7_guarded_divide ⟨2, 3, 4⟩ exMatW0).1 h0,
    (c7_guarded_divide ⟨2, 3, 4⟩ TR_MatrixIdentity).2 h1⟩

/-- C8: the multiplicative identity laws of `TR_MatrixMultiply` with
`TR_MatrixIdentity` hold exactly (the modelled arithmetic is exact, so the
floating-point tolerance of the claim is 0), and `TR_MatrixRotateX` at angle
0 (cosine 1, sine 0) is the identity matrix. -/
theorem c8_matrix_identity_laws (mat : TR_Matrix4x4) :
    TR_MatrixMultiply mat TR_MatrixIdentity = mat ∧
    TR_MatrixMultiply TR_MatrixIdentity mat = mat ∧
    TR_MatrixRotateX 1 0 = TR_MatrixIdentity := by
  refine ⟨mat_ext _ _ ?_, mat_ext _ _ ?_, mat_ext _ _ ?_⟩
  · intro i j
    unfold TR_MatrixMultiply TR_MatrixIdentity
    fin_cases j <;> simp +decide
  · intro i j
    unfold TR_MatrixMultiply TR_MatrixIdentity
    fin_cases i <;> simp +decide
  · intro i j
    unfold TR_MatrixRotateX TR_MatrixIdentity
    fin_cases i <;> fin_cases j <;> simp +decide

/-- The C cast `(int)f` applied to an exact rational: truncation toward
zero. -/
def __tr_cint (q : ℚ) : ℤ := Int.tdiv q.num (q.den : ℤ)

/-- The inclusive integer loop `for (v = a; v <= b; ++v)`. -/
def intRange (a b : ℤ) : List ℤ :=
  (List.range (b + 1 - a).toNat).map (fun (n : ℕ) => a + (n : ℤ))

/-- `__tr_project_vertex`: transform by the MVP matrix, then map NDC to
screen space, inverting Y; `0.5f` is exact. -/
def __tr_project_vertex (wd ht : ℕ) (vertex : TR_Vector3) (mvp : TR_Matrix4x4) :
    TR_Vector3 :=
  let t := TR_Vector3Transform vertex mvp
  ⟨(t.x + 1) * (1 / 2) * (wd : ℚ), (1 - t.y) * (1 / 2) * (ht : ℚ), t.z⟩

/-- The three conditional swaps of `TR_DrawTriangle3DFilled` sorting the
projected vertices by ascending `y`. -/
def __tr_sortByY (p : TR_Vector3 × TR_Vector3 × TR_Vector3) :
    TR_Vector3 × TR_Vector3 × TR_Vector3 :=
  let q1 := if p.1.y > p.2.1.y then (p.2.1, p.1, p.2.2) else p
  let q2 := if q1.1.y > q1.2.2.y then (q1.2.2, q1.2.1, q1.1) else q1
  if q2.2.1.y > q2.2.2.y then (q2.1, q2.2.2, q2.2.1) else q2

/-- The per-scanline accumulator `(x_left, x_right, z_left, z_right)` of
`TR_DrawTriangle3DFilled`, initialized to `(width, 0, 1, 0)`. -/
structure ScanAcc where
  xl : ℚ
  xr : ℚ
  zl : ℚ
  zr : ℚ
deriving DecidableEq

/-- One edge step of the intersection search at scanline `y`: the edge is
considered when `y` lies between the truncated endpoint rows, horizontal
edges are skipped, and the interpolated crossing updates the left/right
extremes (two independent ifs, in source order). -/
def __tr_scan_edge (y : ℤ) (pc pn : TR_Vector3) (acc : ScanAcc) : ScanAcc :=
  if (y ≥ __tr_cint pc.y ∧ y < __tr_cint pn.y) ∨
      (y ≥ __tr_cint pn.y ∧ y < __tr_cint pc.y) then
    if pc.y = pn.y then acc
    else
      let t : ℚ := ((y : ℚ) - pc.y) / (pn.y - pc.y)
      let ix : ℚ := pc.x + t * (pn.x - pc.x)
      let iz : ℚ := pc.z + t * (pn.z - pc.z)
      let acc1 := if ix < acc.xl then { acc with xl := ix, zl := iz } else acc
      if ix > acc1.xr then { acc1 with xr := ix, zr := iz } else acc1
  else acc

/-- The edge loop over `(p[0],p[1]), (p[1],p[2]), (p[2],p[0])`. -/
def __tr_scanline (wd : ℕ) (p0 p1 p2 : TR_Vector3) (y : ℤ) : ScanAcc :=
  [(p0, p1), (p1, p2), (p2, p0)].foldl
    (fun acc e => __tr_scan_edge y e.1 e.2 acc) ⟨(wd : ℚ), 0, 1, 0⟩

/-- The clamped pixel span `(x_start, x_end)` of a scanline. -/
def __tr_span (wd : ℕ) (sa : ScanAcc) : ℤ × ℤ :=
  (if __tr_cint sa.xl < 0 then 0 else __tr_cint sa.xl,
   if __tr_cint sa.xr ≥ (wd : ℤ) then (wd : ℤ) - 1 else __tr_cint sa.xr)

/-- The interpolated depth of pixel `x` in the span `[xs, xe]`. -/
def __tr_pixel_z (sa : ScanAcc) (xs xe x : ℤ) : ℚ :=
  if xe ≠ xs then
    sa.zl + (((x - xs : ℤ) : ℚ) / ((xe - xs : ℤ) : ℚ)) * (sa.zr - sa.zl)
  else sa.zl

/-- The pixels `(x, y, pixel_z)` touched by `TR_DrawTriangle3DFilled`, in
iteration order. Every quantity here (projection, vertex sort, scanline
intersections, spans, interpolated depth) is computed by the source from the
call arguments and loop indices only, never from the mutable buffers, so the
enumeration is a pure function of the inputs. -/
def __tr_tri_pixels (wd ht : ℕ) (v1 v2 v3 : TR_Vector3) (mvp : TR_Matrix4x4) :
    List (ℤ × ℤ × ℚ) :=
  let q := __tr_sortByY (__tr_project_vertex wd ht v1 mvp,
    __tr_project_vertex wd ht v2 mvp, __tr_project_vertex wd ht v3 mvp)
  let ys : ℤ := if __tr_cint q.1.y < 0 then 0 else __tr_cint q.1.y
  let ye : ℤ :=
    if __tr_cint q.2.2.y ≥ (ht : ℤ) then (ht : ℤ) - 1 else __tr_cint q.2.2.y
  (intRange ys ye).flatMap
    (fun y =>
      let sa := __tr_scanline wd q.1 q.2.1 q.2.2 y
      (intRange (__tr_span wd sa).1 (__tr_span wd sa).2).map
        (fun x => (x, y, __tr_pixel_z sa (__tr_span wd sa).1 (__tr_span wd sa).2 x)))

/-- The per-pixel body of the scanline fill: bounds-check the z-buffer index,
depth-test against the stored depth, and on success store the new depth and
plot the pixel (in source order: z-buffer write, then `TR_DrawPixel`). -/
def __tr_zplot (color : Color) (st : EngineState) (u : ℤ × ℤ × ℚ) : EngineState :=
  if 0 ≤ u.2.1 * (st.bufferWidth : ℤ) + u.1 ∧
      u.2.1 * (st.bufferWidth : ℤ) + u.1 < (st.zBufferSize : ℤ) then
    if u.2.2 < st.zBuffer.getD (u.2.1 * (st.bufferWidth : ℤ) + u.1).toNat 0 then
      TR_DrawPixel u.1 u.2.1 color
        { st with
            zBuffer :=
              st.zBuffer.set (u.2.1 * (st.bufferWidth : ℤ) + u.1).toNat u.2.2 }
    else st
  else st

/-- `TR_DrawTriangle3DFilled`: the scanline fill with z-buffering, expressed
as the fold of the per-pixel body over the pixel enumeration (the nested
loops of the source iterate exactly this list in this order; the pixel data
is state-independent, see `__tr_tri_pixels`). -/
def TR_DrawTriangle3DFilled (v1 v2 v3 : TR_Vector3) (mvp : TR_Matrix4x4)
    (color : Color) (st : EngineState) : EngineState :=
  (__tr_tri_pixels st.bufferWidth st.bufferHeight v1 v2 v3 mvp).foldl
    (__tr_zplot color) st

/-- Folding over a `flatMap` is the nested fold, confirming that the
flattened pixel enumeration iterates exactly as the source's nested loops. -/
lemma foldl_flatMap {α β σ : Type} (f : σ → β → σ) (g : α → List β)
    (l : List α) (s : σ) :
    (l.flatMap g).foldl f s = l.foldl (fun s' a => (g a).foldl f s') s := by
  induction l generalizing s with
  | nil => rfl
  | cons a t ih => rw [List.flatMap_cons, List.foldl_append, ih, List.foldl_cons]

/-- A pixel addressing a cell of the visible grid. -/
def pixInBounds (wd ht : ℕ) (u : ℤ × ℤ × ℚ) : Prop :=
  0 ≤ u.1 ∧ u.1 < (wd : ℤ) ∧ 0 ≤ u.2.1 ∧ u.2.1 < (ht : ℤ)

instance (wd ht : ℕ) (u : ℤ × ℤ × ℚ) : Decidable (pixInBounds wd ht u) := by
  unfold pixInBounds; infer_instance

/-- The session invariant used by the depth-test claims: window open, buffer
geometry `wd × ht`, and all three arrays of the advertised length. -/
def stInv (wd ht : ℕ) (st : EngineState) : Prop :=
  st.windowOpen = true ∧ st.bufferWidth = wd ∧ st.bufferHeight = ht ∧
    st.zBufferSize = wd * ht ∧ st.zBuffer.length = wd * ht ∧
    st.screenBuffer.length = wd * ht

instance (wd ht : ℕ) (st : EngineState) : Decidable (stInv wd ht st) := by
  unfold stInv; infer_instance

lemma mem_intRange {a b x : ℤ} : x ∈ intRange a b ↔ a ≤ x ∧ x ≤ b := by
  unfold intRange
  rw [List.mem_map]
  constructor
  · rintro ⟨n, hn, rfl⟩
    rw [List.mem_range] at hn
    omega
  · intro h
    refine ⟨(x - a).toNat, ?_, by omega⟩
    rw [List.mem_range]
    omega

lemma intRange_pairwise (a b : ℤ) : (intRange a b).Pairwise (· < ·) := by
  unfold intRange
  rw [List.pairwise_map]
  apply List.Pairwise.imp ?_ (List.pairwise_lt_range _)
  intro m n h
  omega

/-- Every enumerated pixel of a triangle lies in the visible grid: the span
is clamped to `[0, wd)` and the scanline range to `[0, ht)`. -/
lemma tri_pixels_inBounds (wd ht : ℕ) (v1 v2 v3 : TR_Vector3) (mvp : TR_Matrix4x4) :
    ∀ u ∈ __tr_tri_pixels wd ht v1 v2 v3 mvp, pixInBounds wd ht u := by
  intro u hu
  unfold __tr_tri_pixels at hu
  rw [List.mem_flatMap] at hu
  obtain ⟨y, hy, hu2⟩ := hu
  rw [List.mem_map] at hu2
  obtain ⟨x, hx, rfl⟩ := hu2
  rw [mem_intRange] at hy hx
  unfold __tr_span at hx
  obtain ⟨hx1, hx2⟩ := hx
  obtain ⟨hy1, hy2⟩ := hy
  dsimp only at hx1 hx2 hy1 hy2
  unfold pixInBounds
  dsimp only
  refine ⟨?_, ?_, ?_, ?_⟩
  · split at hx1 <;> omega
  · split at hx2 <;> omega
  · split at hy1 <;> omega
  · split at hy2 <;> omega

/-- Two distinct enumerated pixels of one triangle have distinct positions:
scanlines have distinct `y`, and within a scanline the `x`s are distinct. -/
lemma tri_pixels_pairwise (wd ht : ℕ) (v1 v2 v3 : TR_Vector3) (mvp : TR_Matrix4x4) :
    (__tr_tri_pixels wd ht v1 v2 v3 mvp).Pairwise
      (fun u v => u.1 ≠ v.1 ∨ u.2.1 ≠ v.2.1) := by
  unfold __tr_tri_pixels
  apply pairwise_flatMap_of
  · intro y _
    rw [List.pairwise_map]
    apply List.Pairwise.imp ?_ (intRange_pairwise _ _)
    intro x1 x2 h
    left
    dsimp only
    omega
  · apply List.Pairwise.imp ?_ (intRange_pairwise _ _)
    intro y1 y2 h u hu v hv
    rw [List.mem_map] at hu hv
    obtain ⟨x1, _, rfl⟩ := hu
    obtain ⟨x2, _, rfl⟩ := hv
    right
    dsimp only
    omega

lemma getD_set_self {α : Type} (l : List α) (i : ℕ) (a d : α) (h : i < l.length) :
    (l.set i a).getD i d = a := by
  rw [List.getD_eq_getElem?_getD, List.getElem?_set_self h]
  rfl

lemma getD_set_ne {α : Type} (l : List α) (i j : ℕ) (a d : α) (h : i ≠ j) :
    (l.set i a).getD j d = l.getD j d := by
  rw [List.getD_eq_getElem?_getD, List.getElem?_set_ne h, ← List.getD_eq_getElem?_getD]

lemma getD_replicate {α : Type} (n i : ℕ) (a d : α) (h : i < n) :
    (List.replicate n a).getD i d = a := by
  rw [List.getD_eq_getElem?_getD, List.getElem?_replicate, if_pos h]
  rfl

/-- The flat z-buffer index of an in-bounds pixel lies in `[0, wd*ht)`. -/
lemma index_range (wd ht : ℕ) (u : ℤ × ℤ × ℚ) (h : pixInBounds wd ht u) :
    0 ≤ u.2.1 * (wd : ℤ) + u.1 ∧ u.2.1 * (wd : ℤ) + u.1 < (wd : ℤ) * ht := by
  obtain ⟨h1, h2, h3, h4⟩ := h
  constructor
  · have : 0 ≤ u.2.1 * (wd : ℤ) := mul_nonneg h3 (by positivity)
    omega
  · have hstep : u.2.1 * (wd : ℤ) + u.1 < (u.2.1 + 1) * (wd : ℤ) := by ring_nf; omega
    have hle : (u.2.1 + 1) * (wd : ℤ) ≤ (ht : ℤ) * (wd : ℤ) :=
      mul_le_mul_of_nonneg_right (by omega) (by positivity)
    have : (ht : ℤ) * (wd : ℤ) = (wd : ℤ) * (ht : ℤ) := by ring
    omega

/-- Flat indices of distinct in-bounds positions are distinct. -/
lemma index_inj (wd ht : ℕ) (u v : ℤ × ℤ × ℚ) (hu : pixInBounds wd ht u)
    (hv : pixInBounds wd ht v)
    (h : (u.2.1 * (wd : ℤ) + u.1).toNat = (v.2.1 * (wd : ℤ) + v.1).toNat) :
    u.1 = v.1 ∧ u.2.1 = v.2.1 := by
  obtain ⟨hu1, hu2, hu3, hu4⟩ := hu
  obtain ⟨hv1, hv2, hv3, hv4⟩ := hv
  have hnu := (index_range wd ht u ⟨hu1, hu2, hu3, hu4⟩).1
  have hnv := (index_range wd ht v ⟨hv1, hv2, hv3, hv4⟩).1
  have heq : u.2.1 * (wd : ℤ) + u.1 = v.2.1 * (wd : ℤ) + v.1 := by omega
  have hwd : (0 : ℤ) < (wd : ℤ) := by omega
  have hx : u.1 = v.1 := by
    have e1 : (u.2.1 * (wd : ℤ) + u.1) % (wd : ℤ) = u.1 := by
      rw [show u.2.1 * (wd : ℤ) + u.1 = u.1 + (wd : ℤ) * u.2.1 by ring,
        Int.add_mul_emod_self_left, Int.emod_eq_of_lt hu1 hu2]
    have e2 : (v.2.1 * (wd : ℤ) + v.1) % (wd : ℤ) = v.1 := by
      rw [show v.2.1 * (wd : ℤ) + v.1 = v.1 + (wd : ℤ) * v.2.1 by ring,
        Int.add_mul_emod_self_left, Int.emod_eq_of_lt hv1 hv2]
    rw [← e1, ← e2, heq]
  refine ⟨hx, ?_⟩
  have : u.2.1 * (wd : ℤ) = v.2.1 * (wd : ℤ) := by omega
  exact mul_right_cancel₀ (by omega) this

/-- The successful depth-tested write: store depth `z` and plot the solid
color cell at flat index `i`. -/
def zwrite (i : ℕ) (z : ℚ) (c : Color) (s : EngineState) : EngineState :=
  { s with
      zBuffer := s.zBuffer.set i z,
      screenBuffer := s.screenBuffer.set i ⟨32, c, c⟩ }

lemma zwrite_zBuffer (i : ℕ) (z : ℚ) (c : Color) (s : EngineState) :
    (zwrite i z c s).zBuffer = s.zBuffer.set i z := rfl

lemma zwrite_screen (i : ℕ) (z : ℚ) (c : Color) (s : EngineState) :
    (zwrite i z c s).screenBuffer = s.screenBuffer.set i ⟨32, c, c⟩ := rfl

lemma stInv_zwrite (wd ht : ℕ) (i : ℕ) (z : ℚ) (c : Color) (s : EngineState)
    (hI : stInv wd ht s) : stInv wd ht (zwrite i z c s) := by
  obtain ⟨hopen, hbw, hbh, hzs, hzl, hsl⟩ := hI
  exact ⟨hopen, hbw, hbh, hzs, by simpa [zwrite] using hzl, by simpa [zwrite] using hsl⟩

lemma zwrite_zwrite_same (i : ℕ) (z1 z2 : ℚ) (c1 c2 : Color) (s : EngineState) :
    zwrite i z2 c2 (zwrite i z1 c1 s) = zwrite i z2 c2 s := by
  unfold zwrite
  dsimp only
  rw [List.set_set, List.set_set]

lemma zwrite_zwrite_comm (i j : ℕ) (h : i ≠ j) (z1 z2 : ℚ) (c1 c2 : Color)
    (s : EngineState) :
    zwrite j z2 c2 (zwrite i z1 c1 s) = zwrite i z1 c1 (zwrite j z2 c2 s) := by
  unfold zwrite
  dsimp only
  rw [List.set_comm _ _ _ h, List.set_comm _ _ _ h]

/-- Under the session invariant, the per-pixel body of the fill reduces to a
pure depth-tested write at the pixel's flat index: the z-buffer guard always
passes and `TR_DrawPixel`'s own clipping always passes. -/
lemma zplot_norm (wd ht : ℕ) (c : Color) (st : EngineState) (u : ℤ × ℤ × ℚ)
    (hI : stInv wd ht st) (hu : pixInBounds wd ht u) :
    __tr_zplot c st u =
      if u.2.2 < st.zBuffer.getD (u.2.1 * (wd : ℤ) + u.1).toNat 0 then
        zwrite (u.2.1 * (wd : ℤ) + u.1).toNat u.2.2 c st
      else st := by
  obtain ⟨hopen, hbw, hbh, hzs, hzl, hsl⟩ := hI
  have hir := index_range wd ht u hu
  obtain ⟨hu1, hu2, hu3, hu4⟩ := hu
  unfold zwrite
  unfold __tr_zplot
  rw [hbw, hzs]
  rw [if_pos (by push_cast; omega)]
  split
  · unfold TR_DrawPixel
    rw [if_neg (by dsimp only; simp [hopen, hbw, hbh] <;> omega)]
  · rfl

/-- The per-pixel body preserves the session invariant. -/
lemma zplot_inv (wd ht : ℕ) (c : Color) (st : EngineState) (u : ℤ × ℤ × ℚ)
    (hI : stInv wd ht st) : stInv wd ht (__tr_zplot c st u) := by
  obtain ⟨hopen, hbw, hbh, hzs, hzl, hsl⟩ := hI
  unfold __tr_zplot
  split
  · split
    · unfold TR_DrawPixel
      split
      · exact ⟨hopen, hbw, hbh, hzs, by simpa using hzl, hsl⟩
      · refine ⟨hopen, hbw, hbh, hzs, by simpa using hzl, by simpa using hsl⟩
    · exact ⟨hopen, hbw, hbh, hzs, hzl, hsl⟩
  · exact ⟨hopen, hbw, hbh, hzs, hzl, hsl⟩

/-- Folding the per-pixel body preserves the session invariant. -/
lemma fold_zplot_inv (wd ht : ℕ) (c : Color) (L : List (ℤ × ℤ × ℚ))
    (st : EngineState) (hI : stInv wd ht st) :
    stInv wd ht (L.foldl (__tr_zplot c) st) := by
  induction L generalizing st with
  | nil => exact hI
  | cons a t ih => exact ih _ (zplot_inv wd ht c st a hI)

lemma index_toNat_lt (wd ht : ℕ) (u : ℤ × ℤ × ℚ) (h : pixInBounds wd ht u) :
    (u.2.1 * (wd : ℤ) + u.1).toNat < wd * ht := by
  have h1 := index_range wd ht u h
  have h2 : u.2.1 * (wd : ℤ) + u.1 < ((wd * ht : ℕ) : ℤ) := by push_cast; exact h1.2
  omega

/-- Two depth-tested pixel writes commute when they address different cells,
or the same cell with different depths. -/
lemma zplot_comm (wd ht : ℕ) (c1 c2 : Color) (u v : ℤ × ℤ × ℚ)
    (hu : pixInBounds wd ht u) (hv : pixInBounds wd ht v)
    (hz : u.1 = v.1 → u.2.1 = v.2.1 → u.2.2 ≠ v.2.2)
    (s : EngineState) (hI : stInv wd ht s) :
    __tr_zplot c2 (__tr_zplot c1 s u) v = __tr_zplot c1 (__tr_zplot c2 s v) u := by
  have hiu : (u.2.1 * (wd : ℤ) + u.1).toNat < wd * ht := index_toNat_lt wd ht u hu
  have hiv : (v.2.1 * (wd : ℤ) + v.1).toNat < wd * ht := index_toNat_lt wd ht v hv
  have hzlen : s.zBuffer.length = wd * ht := hI.2.2.2.2.1
  rw [zplot_norm wd ht c1 s u hI hu, zplot_norm wd ht c2 s v hI hv]
  by_cases hpos : u.1 = v.1 ∧ u.2.1 = v.2.1
  · have hieq : (v.2.1 * (wd : ℤ) + v.1).toNat = (u.2.1 * (wd : ℤ) + u.1).toNat := by
      rw [hpos.1, hpos.2]
    have hzne : u.2.2 ≠ v.2.2 := hz hpos.1 hpos.2
    rw [hieq]
    by_cases h1 : u.2.2 < s.zBuffer.getD (u.2.1 * (wd : ℤ) + u.1).toNat 0 <;>
      by_cases h2 : v.2.2 < s.zBuffer.getD (u.2.1 * (wd : ℤ) + u.1).toNat 0
    · rw [if_pos h1, if_pos h2]
      rw [zplot_norm wd ht c2 (zwrite (u.2.1 * (wd : ℤ) + u.1).toNat u.2.2 c1 s) v
          (stInv_zwrite wd ht _ _ _ s hI) hv,
        zplot_norm wd ht c1 (zwrite (u.2.1 * (wd : ℤ) + u.1).toNat v.2.2 c2 s) u
          (stInv_zwrite wd ht _ _ _ s hI) hu]
      rw [hieq, zwrite_zBuffer, zwrite_zBuffer,
        getD_set_self _ _ _ _ (by omega), getD_set_self _ _ _ _ (by omega)]
      rcases lt_or_gt_of_ne hzne with hlt | hlt
      · rw [if_neg (by linarith), if_pos hlt, zwrite_zwrite_same]
      · rw [if_pos hlt, if_neg (by linarith), zwrite_zwrite_same]
    · rw [if_pos h1, if_neg h2]
      rw [zplot_norm wd ht c2 (zwrite (u.2.1 * (wd : ℤ) + u.1).toNat u.2.2 c1 s) v
          (stInv_zwrite wd ht _ _ _ s hI) hv,
        zplot_norm wd ht c1 s u hI hu]
      rw [hieq, zwrite_zBuffer, getD_set_self _ _ _ _ (by omega)]
      rw [if_neg (by linarith), if_pos h1]
    · rw [if_neg h1, if_pos h2]
      rw [zplot_norm wd ht c2 s v hI hv,
        zplot_norm wd ht c1 (zwrite (u.2.1 * (wd : ℤ) + u.1).toNat v.2.2 c2 s) u
          (stInv_zwrite wd ht _ _ _ s hI) hu]
      rw [hieq, zwrite_zBuffer, getD_set_self _ _ _ _ (by omega)]
      rw [if_pos h2, if_neg (by linarith)]
    · rw [if_neg h1, if_neg h2]
      rw [zplot_norm wd ht c2 s v hI hv, zplot_norm wd ht c1 s u hI hu]
      rw [hieq]
      rw [if_neg h2, if_neg h1]
  · have hine : (v.2.1 * (wd : ℤ) + v.1).toNat ≠ (u.2.1 * (wd : ℤ) + u.1).toNat := by
      intro h
      exact hpos ⟨(index_inj wd ht v u hv hu h).1.symm,
        (index_inj wd ht v u hv hu h).2.symm⟩
    by_cases h1 : u.2.2 < s.zBuffer.getD (u.2.1 * (wd : ℤ) + u.1).toNat 0 <;>
      by_cases h2 : v.2.2 < s.zBuffer.getD (v.2.1 * (wd : ℤ) + v.1).toNat 0
    · rw [if_pos h1, if_pos h2]
      rw [zplot_norm wd ht c2 (zwrite (u.2.1 * (wd : ℤ) + u.1).toNat u.2.2 c1 s) v
          (stInv_zwrite wd ht _ _ _ s hI) hv,
        zplot_norm wd ht c1 (zwrite (v.2.1 * (wd : ℤ) + v.1).toNat v.2.2 c2 s) u
          (stInv_zwrite wd ht _ _ _ s hI) hu]
      rw [zwrite_zBuffer, zwrite_zBuffer,
        getD_set_ne _ _ _ _ _ (Ne.symm hine), getD_set_ne _ _ _ _ _ hine]
      rw [if_pos h2, if_pos h1, zwrite_zwrite_comm _ _ (Ne.symm hine)]
    · rw [if_pos h1, if_neg h2]
      rw [zplot_norm wd ht c2 (zwrite (u.2.1 * (wd : ℤ) + u.1).toNat u.2.2 c1 s) v
          (stInv_zwrite wd ht _ _ _ s hI) hv,
        zplot_norm wd ht c1 s u hI hu]
      rw [zwrite_zBuffer, getD_set_ne _ _ _ _ _ (Ne.symm hine)]
      rw [if_neg h2, if_pos h1]
    · rw [if_neg h1, if_pos h2]
      rw [zplot_norm wd ht c2 s v hI hv,
        zplot_norm wd ht c1 (zwrite (v.2.1 * (wd : ℤ) + v.1).toNat v.2.2 c2 s) u
          (stInv_zwrite wd ht _ _ _ s hI) hu]
      rw [zwrite_zBuffer, getD_set_ne _ _ _ _ _ hine]
      rw [if_pos h2, if_neg h1]
    · rw [if_neg h1, if_neg h2]
      rw [zplot_norm wd ht c2 s v hI hv, zplot_norm wd ht c1 s u hI hu]
      rw [if_neg h2, if_neg h1]

/-- Pushing one `f`-step through a `g`-fold, given pointwise commutation and
an invariant preserved by `g`. -/
lemma foldl_single_comm {σ υ : Type} (f g : σ → υ → σ) (I : σ → Prop) (a : υ) :
    ∀ B : List υ, (∀ s v, I s → v ∈ B → g (f s a) v = f (g s v) a) →
      (∀ s v, I s → I (g s v)) → ∀ s, I s → B.foldl g (f s a) = f (B.foldl g s) a := by
  intro B
  induction B with
  | nil => intro _ _ s _; rfl
  | cons b t ih =>
    intro hc hIg s hs
    rw [List.foldl_cons, List.foldl_cons, hc s b hs (by simp)]
    exact ih (fun s' v hs' hv => hc s' v hs' (by simp [hv])) hIg (g s b) (hIg s b hs)

/-- Two folds over pointwise-commuting update lists can be applied in either
order. -/
lemma foldl_comm {σ υ : Type} (f g : σ → υ → σ) (I : σ → Prop) :
    ∀ A B : List υ, (∀ s u v, I s → u ∈ A → v ∈ B → g (f s u) v = f (g s v) u) →
      (∀ s u, I s → I (f s u)) → (∀ s v, I s → I (g s v)) →
      ∀ s, I s → B.foldl g (A.foldl f s) = A.foldl f (B.foldl g s) := by
  intro A
  induction A with
  | nil => intro B _ _ _ s _; rfl
  | cons a t ih =>
    intro B hc hIf hIg s hs
    rw [List.foldl_cons, List.foldl_cons]
    rw [ih B (fun s' u v hs' hu hv => hc s' u v hs' (List.mem_cons_of_mem a hu) hv)
      hIf hIg (f s a) (hIf s a hs)]
    rw [foldl_single_comm f g I a B (fun s' v hs' hv => hc s' a v hs' (by simp) hv)
      hIg s hs]

/-- A fold of depth-tested writes none of which addresses flat index `i`
leaves both buffers unchanged at `i`. -/
lemma fold_zplot_untouched (wd ht : ℕ) (c : Color) (i : ℕ) :
    ∀ (L : List (ℤ × ℤ × ℚ)) (st : EngineState), stInv wd ht st →
      (∀ u ∈ L, pixInBounds wd ht u ∧ (u.2.1 * (wd : ℤ) + u.1).toNat ≠ i) →
      (L.foldl (__tr_zplot c) st).zBuffer.getD i 0 = st.zBuffer.getD i 0 ∧
      (L.foldl (__tr_zplot c) st).screenBuffer.getD i __tr_default_cell =
        st.screenBuffer.getD i __tr_default_cell := by
  intro L
  induction L with
  | nil => intro st _ _; exact ⟨rfl, rfl⟩
  | cons a t ih =>
    intro st hI hL
    obtain ⟨ha, hane⟩ := hL a (by simp)
    rw [List.foldl_cons]
    have hrec := ih (__tr_zplot c st a) (zplot_inv wd ht c st a hI)
      (fun u hu => hL u (by simp [hu]))
    have hstep := zplot_norm wd ht c st a hI ha
    constructor
    · rw [hrec.1, hstep]
      split
      · rw [zwrite_zBuffer, getD_set_ne _ _ _ _ _ hane]
      · rfl
    · rw [hrec.2, hstep]
      split
      · rw [zwrite_screen, getD_set_ne _ _ _ _ _ hane]
      · rfl

/-- Drawing the update list `A` (color `c1`) and then `B` (color `c2`) onto a
freshly reset depth buffer writes, at a cell addressed by `u ∈ A` and `v ∈ B`
with `u` strictly nearer, the `c1` pixel when `u` is in front of the far
plane, and nothing otherwise. -/
lemma nearest_wins (wd ht : ℕ) (c1 c2 : Color) (A B : List (ℤ × ℤ × ℚ))
    (st : EngineState) (hI : stInv wd ht st)
    (hz0 : st.zBuffer = List.replicate (wd * ht) (1 : ℚ))
    (hAb : ∀ u ∈ A, pixInBounds wd ht u) (hBb : ∀ v ∈ B, pixInBounds wd ht v)
    (hAp : A.Pairwise (fun a b => a.1 ≠ b.1 ∨ a.2.1 ≠ b.2.1))
    (hBp : B.Pairwise (fun a b => a.1 ≠ b.1 ∨ a.2.1 ≠ b.2.1))
    (u : ℤ × ℤ × ℚ) (hu : u ∈ A) (v : ℤ × ℤ × ℚ) (hv : v ∈ B)
    (hxy : u.1 = v.1 ∧ u.2.1 = v.2.1) (hlt : u.2.2 < v.2.2) :
    (B.foldl (__tr_zplot c2) (A.foldl (__tr_zplot c1) st)).screenBuffer.getD
        (u.2.1 * (wd : ℤ) + u.1).toNat __tr_default_cell =
      if u.2.2 < 1 then (⟨32, c1, c1⟩ : Cell)
      else st.screenBuffer.getD (u.2.1 * (wd : ℤ) + u.1).toNat __tr_default_cell := by
  have hub : pixInBounds wd ht u := hAb u hu
  have hvb : pixInBounds wd ht v := hBb v hv
  have hiu : (u.2.1 * (wd : ℤ) + u.1).toNat < wd * ht := index_toNat_lt wd ht u hub
  have hvidx : (v.2.1 * (wd : ℤ) + v.1).toNat = (u.2.1 * (wd : ℤ) + u.1).toNat := by
    rw [← hxy.1, ← hxy.2]
  have hne_of_pos : ∀ w : ℤ × ℤ × ℚ, pixInBounds wd ht w →
      (w.1 ≠ u.1 ∨ w.2.1 ≠ u.2.1) →
      (w.2.1 * (wd : ℤ) + w.1).toNat ≠ (u.2.1 * (wd : ℤ) + u.1).toNat := by
    intro w hwb hR heq
    have := index_inj wd ht w u hwb hub heq
    tauto
  obtain ⟨A1, A2, rfl⟩ := List.append_of_mem hu
  obtain ⟨B1, B2, rfl⟩ := List.append_of_mem hv
  rw [List.pairwise_append] at hAp hBp
  rw [List.pairwise_cons] at hAp hBp
  have hA1 : ∀ w ∈ A1, pixInBounds wd ht w ∧
      (w.2.1 * (wd : ℤ) + w.1).toNat ≠ (u.2.1 * (wd : ℤ) + u.1).toNat := by
    intro w hw
    exact ⟨hAb w (by simp [hw]),
      hne_of_pos w (hAb w (by simp [hw])) (hAp.2.2 w hw u (by simp))⟩
  have hA2 : ∀ w ∈ A2, pixInBounds wd ht w ∧
      (w.2.1 * (wd : ℤ) + w.1).toNat ≠ (u.2.1 * (wd : ℤ) + u.1).toNat := by
    intro w hw
    have hR := hAp.2.1.1 w hw
    exact ⟨hAb w (by simp [hw]),
      hne_of_pos w (hAb w (by simp [hw])) (by tauto)⟩
  have hB1 : ∀ w ∈ B1, pixInBounds wd ht w ∧
      (w.2.1 * (wd : ℤ) + w.1).toNat ≠ (u.2.1 * (wd : ℤ) + u.1).toNat := by
    intro w hw
    have hR := hBp.2.2 w hw v (by simp)
    refine ⟨hBb w (by simp [hw]), hne_of_pos w (hBb w (by simp [hw])) ?_⟩
    rw [hxy.1, hxy.2]
    exact hR
  have hB2 : ∀ w ∈ B2, pixInBounds wd ht w ∧
      (w.2.1 * (wd : ℤ) + w.1).toNat ≠ (u.2.1 * (wd : ℤ) + u.1).toNat := by
    intro w hw
    have hR := hBp.2.1.1 w hw
    refine ⟨hBb w (by simp [hw]), hne_of_pos w (hBb w (by simp [hw])) ?_⟩
    rw [hxy.1, hxy.2]
    tauto
  rw [List.foldl_append, List.foldl_cons, List.foldl_append, List.foldl_cons]
  set F1 := A1.foldl (__tr_zplot c1) st with hF1def
  have hF1I : stInv wd ht F1 := fold_zplot_inv wd ht c1 A1 st hI
  have hF1 := fold_zplot_untouched wd ht c1 (u.2.1 * (wd : ℤ) + u.1).toNat A1 st hI hA1
  have hF1z : F1.zBuffer.getD (u.2.1 * (wd : ℤ) + u.1).toNat 0 = 1 := by
    rw [hF1.1, hz0, getD_replicate _ _ _ _ hiu]
  set S := __tr_zplot c1 F1 u with hSdef
  have hSI : stInv wd ht S := zplot_inv wd ht c1 F1 u hF1I
  have hstep : S = if u.2.2 < 1 then
      zwrite (u.2.1 * (wd : ℤ) + u.1).toNat u.2.2 c1 F1 else F1 := by
    rw [hSdef, zplot_norm wd ht c1 F1 u hF1I hub, hF1z]
  have hSz : S.zBuffer.getD (u.2.1 * (wd : ℤ) + u.1).toNat 0 =
      if u.2.2 < 1 then u.2.2 else 1 := by
    rw [hstep]
    split
    · rw [zwrite_zBuffer,
        getD_set_self _ _ _ _ (by have := hF1I.2.2.2.2.1; omega)]
    · exact hF1z
  have hSs : S.screenBuffer.getD (u.2.1 * (wd : ℤ) + u.1).toNat __tr_default_cell =
      if u.2.2 < 1 then (⟨32, c1, c1⟩ : Cell)
      else st.screenBuffer.getD (u.2.1 * (wd : ℤ) + u.1).toNat __tr_default_cell := by
    rw [hstep]
    split
    · rw [zwrite_screen,
        getD_set_self _ _ _ _ (by have := hF1I.2.2.2.2.2; omega)]
    · exact hF1.2
  set F2 := A2.foldl (__tr_zplot c1) S with hF2def
  have hF2I : stInv wd ht F2 := fold_zplot_inv wd ht c1 A2 S hSI
  have hF2 := fold_zplot_untouched wd ht c1 (u.2.1 * (wd : ℤ) + u.1).toNat A2 S hSI hA2
  set G1 := B1.foldl (__tr_zplot c2) F2 with hG1def
  have hG1I : stInv wd ht G1 := fold_zplot_inv wd ht c2 B1 F2 hF2I
  have hG1 := fold_zplot_untouched wd ht c2 (u.2.1 * (wd : ℤ) + u.1).toNat B1 F2 hF2I hB1
  have hvstep : __tr_zplot c2 G1 v = G1 := by
    rw [zplot_norm wd ht c2 G1 v hG1I hvb, hvidx, hG1.1, hF2.1, hSz]
    rw [if_neg (by split_ifs <;> linarith)]
  rw [hvstep]
  have hG2 := fold_zplot_untouched wd ht c2 (u.2.1 * (wd : ℤ) + u.1).toNat B2 G1 hG1I hB2
  rw [hG2.2, hG1.2, hF2.2, hSs]

lemma drawTriangle_as_fold (wd ht : ℕ) (v1 v2 v3 : TR_Vector3) (mvp : TR_Matrix4x4)
    (c : Color) (st : EngineState) (hI : stInv wd ht st) :
    TR_DrawTriangle3DFilled v1 v2 v3 mvp c st =
      (__tr_tri_pixels wd ht v1 v2 v3 mvp).foldl (__tr_zplot c) st := by
  unfold TR_DrawTriangle3DFilled
  rw [hI.2.1, hI.2.2.1]

/-- C5: starting from a depth buffer reset to the far value 1, two filled
triangles whose interpolated depths differ at every commonly covered pixel
can be drawn with `TR_DrawTriangle3DFilled` in either order with identical
resulting engine state (frame buffer and depth buffer); and at every common
pixel the frame buffer holds the nearer triangle's solid pixel when the
nearer depth beats the far plane, and is untouched otherwise. -/
theorem c5_depth_order_independence (wd ht : ℕ) (st : EngineState)
    (a1 a2 a3 b1 b2 b3 : TR_Vector3) (mvp : TR_Matrix4x4) (c1 c2 : Color)
    (hI : stInv wd ht st)
    (hz0 : st.zBuffer = List.replicate (wd * ht) (1 : ℚ))
    (hov : ∃ u ∈ __tr_tri_pixels wd ht a1 a2 a3 mvp,
      ∃ v ∈ __tr_tri_pixels wd ht b1 b2 b3 mvp, u.1 = v.1 ∧ u.2.1 = v.2.1)
    (hdiff : ∀ u ∈ __tr_tri_pixels wd ht a1 a2 a3 mvp,
      ∀ v ∈ __tr_tri_pixels wd ht b1 b2 b3 mvp,
      u.1 = v.1 → u.2.1 = v.2.1 → u.2.2 ≠ v.2.2) :
    (TR_DrawTriangle3DFilled b1 b2 b3 mvp c2
        (TR_DrawTriangle3DFilled a1 a2 a3 mvp c1 st) =
      TR_DrawTriangle3DFilled a1 a2 a3 mvp c1
        (TR_DrawTriangle3DFilled b1 b2 b3 mvp c2 st)) ∧
    (∀ u ∈ __tr_tri_pixels wd ht a1 a2 a3 mvp,
      ∀ v ∈ __tr_tri_pixels wd ht b1 b2 b3 mvp, u.1 = v.1 → u.2.1 = v.2.1 →
      (u.2.2 < v.2.2 →
        (TR_DrawTriangle3DFilled b1 b2 b3 mvp c2
            (TR_DrawTriangle3DFilled a1 a2 a3 mvp c1 st)).screenBuffer.getD
          (u.2.1 * (wd : ℤ) + u.1).toNat __tr_default_cell =
          if u.2.2 < 1 then (⟨32, c1, c1⟩ : Cell)
          else st.screenBuffer.getD (u.2.1 * (wd : ℤ) + u.1).toNat __tr_default_cell) ∧
      (v.2.2 < u.2.2 →
        (TR_DrawTriangle3DFilled b1 b2 b3 mvp c2
            (TR_DrawTriangle3DFilled a1 a2 a3 mvp c1 st)).screenBuffer.getD
          (u.2.1 * (wd : ℤ) + u.1).toNat __tr_default_cell =
          if v.2.2 < 1 then (⟨32, c2, c2⟩ : Cell)
          else st.screenBuffer.getD (u.2.1 * (wd : ℤ) + u.1).toNat __tr_default_cell)) := by
  have hAb := tri_pixels_inBounds wd ht a1 a2 a3 mvp
  have hBb := tri_pixels_inBounds wd ht b1 b2 b3 mvp
  have hAp := tri_pixels_pairwise wd ht a1 a2 a3 mvp
  have hBp := tri_pixels_pairwise wd ht b1 b2 b3 mvp
  have hcomm_main :
      TR_DrawTriangle3DFilled b1 b2 b3 mvp c2
          (TR_DrawTriangle3DFilled a1 a2 a3 mvp c1 st) =
        TR_DrawTriangle3DFilled a1 a2 a3 mvp c1
          (TR_DrawTriangle3DFilled b1 b2 b3 mvp c2 st) := by
    rw [drawTriangle_as_fold wd ht a1 a2 a3 mvp c1 st hI,
      drawTriangle_as_fold wd ht b1 b2 b3 mvp c2 _ (fold_zplot_inv _ _ _ _ _ hI),
      drawTriangle_as_fold wd ht b1 b2 b3 mvp c2 st hI,
      drawTriangle_as_fold wd ht a1 a2 a3 mvp c1 _ (fold_zplot_inv _ _ _ _ _ hI)]
    exact foldl_comm (__tr_zplot c1) (__tr_zplot c2) (stInv wd ht) _ _
      (fun s u v hs huA hvB => zplot_comm wd ht c1 c2 u v (hAb u huA) (hBb v hvB)
        (hdiff u huA v hvB) s hs)
      (fun s u hs => zplot_inv wd ht c1 s u hs)
      (fun s v hs => zplot_inv wd ht c2 s v hs) st hI
  refine ⟨hcomm_main, ?_⟩
  intro u huA v hvB hx hy
  constructor
  · intro hlt
    rw [drawTriangle_as_fold wd ht a1 a2 a3 mvp c1 st hI,
      drawTriangle_as_fold wd ht b1 b2 b3 mvp c2 _ (fold_zplot_inv _ _ _ _ _ hI)]
    exact nearest_wins wd ht c1 c2 _ _ st hI hz0 hAb hBb hAp hBp u huA v hvB
      ⟨hx, hy⟩ hlt
  · intro hlt
    rw [hcomm_main]
    rw [drawTriangle_as_fold wd ht b1 b2 b3 mvp c2 st hI,
      drawTriangle_as_fold wd ht a1 a2 a3 mvp c1 _ (fold_zplot_inv _ _ _ _ _ hI)]
    have hres := nearest_wins wd ht c2 c1 _ _ st hI hz0 hBb hAb hBp hAp v hvB u huA
      ⟨hx.symm, hy.symm⟩ hlt
    rw [show (v.2.1 * (wd : ℤ) + v.1).toNat = (u.2.1 * (wd : ℤ) + u.1).toNat from
      by rw [← hx, ← hy]] at hres
    exact hres

/-- A concrete open 4×4 session with a freshly reset depth buffer. -/
def exSt4 : EngineState :=
  { windowOpen := true, frameTimeUs := 0, keyBuffer := 0,
    screenBuffer := List.replicate 16 ⟨32, BLACK, BLACK⟩,
    prevScreenBuffer := List.replicate 16 ⟨32, BLACK, BLACK⟩,
    bufferWidth := 4, bufferHeight := 4, currentBgColor := BLACK,
    initialWidth := 4, initialHeight := 4,
    zBuffer := List.replicate 16 1, zBufferSize := 16 }

/-- Witness for C5: two concrete coincident triangles at depths 1/2 and 3/4,
drawn through the identity MVP onto the reset 4×4 session, commute. -/
theorem c5_depth_order_independence_witness :
    TR_DrawTriangle3DFilled ⟨-1, 1, 3/4⟩ ⟨1, 1, 3/4⟩ ⟨-1, -1, 3/4⟩
        TR_MatrixIdentity BLUE
        (TR_DrawTriangle3DFilled ⟨-1, 1, 1/2⟩ ⟨1, 1, 1/2⟩ ⟨-1, -1, 1/2⟩
          TR_MatrixIdentity RED exSt4) =
      TR_DrawTriangle3DFilled ⟨-1, 1, 1/2⟩ ⟨1, 1, 1/2⟩ ⟨-1, -1, 1/2⟩
        TR_MatrixIdentity RED
        (TR_DrawTriangle3DFilled ⟨-1, 1, 3/4⟩ ⟨1, 1, 3/4⟩ ⟨-1, -1, 3/4⟩
          TR_MatrixIdentity BLUE exSt4) :=
  (c5_depth_order_independence 4 4 exSt4 ⟨-1, 1, 1/2⟩ ⟨1, 1, 1/2⟩ ⟨-1, -1, 1/2⟩
    ⟨-1, 1, 3/4⟩ ⟨1, 1, 3/4⟩ ⟨-1, -1, 3/4⟩ TR_MatrixIdentity RED BLUE
    (by decide) (by decide) (by with_unfolding_all decide)
    (by with_unfolding_all decide)).1
